import Mathlib

/-!
Verification of the Destination Delivery & Streaming Execution Pipeline
(`Frontend/log_generator_ui.py`, `event_generators/vibelog_ui.py`) against its
design specification.  The Python code is shallowly embedded as executable Lean
definitions: strings become `List Char` (or `String` for record fields),
Python's `str.replace`, `str.split`, `str.strip`, the destination registry
operations and the streaming generators become total Lean functions, and the
external effects (keyring, file save, socket connect, child process) become
explicit boolean/list parameters.
-/

set_option maxRecDepth 10000

open List

/-! ### Python `str.replace` on character lists -/

/-- Fuel-indexed core of Python `s.replace(pat, rep)`: leftmost, non-overlapping
replacement.  The wrapper `pyReplace` supplies `s.length` as fuel, which is
always sufficient when `pat` is nonempty. -/
def pyReplaceAux (pat rep : List Char) : Nat → List Char → List Char
  | _, [] => []
  | 0, s => s
  | n + 1, c :: rest =>
    if pat.isPrefixOf (c :: rest) then
      rep ++ pyReplaceAux pat rep n ((c :: rest).drop pat.length)
    else
      c :: pyReplaceAux pat rep n rest

/-- Python `s.replace(pat, rep)` on character lists.  For an empty pattern
Python inserts `rep` before every character and at the end; for a nonempty
pattern it performs leftmost non-overlapping replacement. -/
def pyReplace (s pat rep : List Char) : List Char :=
  if pat = [] then rep ++ s.flatMap (fun c => c :: rep)
  else pyReplaceAux pat rep s.length s

theorem pyReplaceAux_fuel (pat rep : List Char) (hpat : pat ≠ []) :
    ∀ n m s, s.length ≤ n → s.length ≤ m →
      pyReplaceAux pat rep n s = pyReplaceAux pat rep m s := by
  intro n
  induction n with
  | zero =>
    intro m s hn _hm
    have : s = [] := List.eq_nil_of_length_eq_zero (Nat.le_zero.mp hn)
    subst this
    cases m <;> rfl
  | succ n ih =>
    intro m s hn hm
    cases s with
    | nil => cases m <;> rfl
    | cons c rest =>
      cases m with
      | zero => exact absurd hm (by simp)
      | succ m' =>
        simp only [List.length_cons] at hn hm
        have hp1 : 1 ≤ pat.length := by
          cases pat with
          | nil => exact absurd rfl hpat
          | cons _ _ => simp
        simp only [pyReplaceAux]
        by_cases h : pat.isPrefixOf (c :: rest)
        · rw [if_pos h, if_pos h]
          have hlen : ((c :: rest).drop pat.length).length ≤ n := by
            simp only [List.length_drop, List.length_cons]
            omega
          have hlen' : ((c :: rest).drop pat.length).length ≤ m' := by
            simp only [List.length_drop, List.length_cons]
            omega
          rw [ih _ _ hlen hlen']
        · rw [if_neg h, if_neg h]
          rw [ih m' rest (by omega) (by omega)]

theorem pyReplace_nil (pat rep : List Char) (hpat : pat ≠ []) :
    pyReplace [] pat rep = [] := by
  simp [pyReplace, hpat, pyReplaceAux]

theorem pyReplace_cons_pos (c : Char) (rest pat rep : List Char) (hpat : pat ≠ [])
    (h : pat.isPrefixOf (c :: rest)) :
    pyReplace (c :: rest) pat rep =
      rep ++ pyReplace ((c :: rest).drop pat.length) pat rep := by
  simp only [pyReplace, hpat, if_false, List.length_cons]
  rw [pyReplaceAux, if_pos h]
  congr 1
  apply pyReplaceAux_fuel pat rep hpat
  · have h1 : 1 ≤ pat.length := by
      cases pat with
      | nil => exact absurd rfl hpat
      | cons _ _ => simp
    simp only [List.length_drop, List.length_cons]
    omega
  · exact Nat.le_refl _

theorem pyReplace_cons_neg (c : Char) (rest pat rep : List Char) (hpat : pat ≠ [])
    (h : ¬ pat.isPrefixOf (c :: rest)) :
    pyReplace (c :: rest) pat rep = c :: pyReplace rest pat rep := by
  simp only [pyReplace, hpat, if_false, List.length_cons]
  rw [pyReplaceAux, if_neg h]

/-! ### Occurrence lemmas about `pyReplace` -/

theorem infix_append_right_of_disjoint {α : Type} {x a b : List α} (hx : x ≠ [])
    (hd : ∀ c ∈ a, c ∉ x) (h : x <:+: a ++ b) : x <:+: b := by
  induction a with
  | nil => simpa using h
  | cons c a' ih =>
    rcases ( List.infix_cons_iff).mp h with hpre | hinf
    · rcases ( List.prefix_cons_iff).mp hpre with hnil | ⟨t, hxt, _⟩
      · exact absurd hnil hx
      · exfalso
        have hcx : c ∈ x := by rw [hxt]; exact List.mem_cons_self _ _
        exact hd c (List.mem_cons_self _ _) hcx
    · exact ih (fun d hda => hd d (List.mem_cons_of_mem _ hda)) hinf

theorem infix_append_left_of_disjoint {α : Type} {x a b : List α} (hx : x ≠ [])
    (hd : ∀ c ∈ b, c ∉ x) (h : x <:+: a ++ b) : x <:+: a := by
  have h' : x.reverse <:+: b.reverse ++ a.reverse := by
    rw [← List.reverse_append]
    exact ( List.reverse_infix).mpr h
  have hx' : x.reverse ≠ [] := by
    intro hc; exact hx (by simpa using congrArg List.reverse hc)
  have hd' : ∀ c ∈ b.reverse, c ∉ x.reverse := by
    intro c hcb hcx
    exact hd c (List.mem_reverse.mp hcb) (List.mem_reverse.mp hcx)
  have := infix_append_right_of_disjoint hx' hd' h'
  exact ( List.reverse_infix).mp this

theorem prefix_pyReplace {x s pat rep : List Char} (hpat : pat ≠ []) (hrep : rep ≠ [])
    (hd : ∀ c ∈ rep, c ∉ x) (h : x <+: pyReplace s pat rep) : x <+: s := by
  have hp1 : 1 ≤ pat.length := by
    cases pat with
    | nil => exact absurd rfl hpat
    | cons _ _ => simp
  suffices H : ∀ n s x, s.length ≤ n → (∀ c ∈ rep, c ∉ x) →
      x <+: pyReplace s pat rep → x <+: s by
    exact H s.length s x (Nat.le_refl _) hd h
  clear hd h x s
  intro n
  induction n with
  | zero =>
    intro s x hsn _hd h
    have : s = [] := List.eq_nil_of_length_eq_zero (Nat.le_zero.mp hsn)
    subst this
    rw [pyReplace_nil _ _ hpat] at h
    simpa using h
  | succ n ih =>
  intro s x hsn hd h
  cases s with
  | nil =>
    rw [pyReplace_nil _ _ hpat] at h
    simpa using h
  | cons c rest =>
    by_cases hm : pat.isPrefixOf (c :: rest)
    · rw [pyReplace_cons_pos c rest pat rep hpat hm] at h
      cases x with
      | nil => exact List.nil_prefix
      | cons x0 xs =>
        exfalso
        cases rep with
        | nil => exact hrep rfl
        | cons r0 rs =>
          have : x0 = r0 := (( List.cons_prefix_cons).mp h).1
          exact hd r0 (List.mem_cons_self _ _) (this ▸ List.mem_cons_self _ _)
    · rw [pyReplace_cons_neg c rest pat rep hpat hm] at h
      cases x with
      | nil => exact List.nil_prefix
      | cons x0 xs =>
        have hx0 : x0 = c := (( List.cons_prefix_cons).mp h).1
        have hxs : xs <+: pyReplace rest pat rep := (( List.cons_prefix_cons).mp h).2
        have hdx : ∀ d ∈ rep, d ∉ xs := by
          intro d hdm hdc
          exact hd d hdm (List.mem_cons_of_mem _ hdc)
        have := ih rest xs (by simp only [List.length_cons] at hsn; omega) hdx hxs
        rw [hx0]
        exact ( List.cons_prefix_cons).mpr ⟨rfl, this⟩

theorem not_infix_pyReplace_self {s pat rep : List Char} (hpat : pat ≠ []) (hrep : rep ≠ [])
    (hd : ∀ c ∈ rep, c ∉ pat) : ¬ pat <:+: pyReplace s pat rep := by
  have hp1 : 1 ≤ pat.length := by
    cases pat with
    | nil => exact absurd rfl hpat
    | cons _ _ => simp
  suffices H : ∀ n s, s.length ≤ n → ¬ pat <:+: pyReplace s pat rep by
    exact H s.length s (Nat.le_refl _)
  clear s
  intro n
  induction n with
  | zero =>
    intro s hsn
    have : s = [] := List.eq_nil_of_length_eq_zero (Nat.le_zero.mp hsn)
    subst this
    rw [pyReplace_nil _ _ hpat]
    intro hc
    exact hpat (List.eq_nil_of_infix_nil hc)
  | succ n ih =>
  intro s hsn
  cases s with
  | nil =>
    rw [pyReplace_nil _ _ hpat]
    intro hc
    exact hpat (List.eq_nil_of_infix_nil hc)
  | cons c rest =>
    by_cases hm : pat.isPrefixOf (c :: rest)
    · rw [pyReplace_cons_pos c rest pat rep hpat hm]
      intro hc
      have h2 : pat <:+: pyReplace ((c :: rest).drop pat.length) pat rep :=
        infix_append_right_of_disjoint hpat hd hc
      exact ih ((c :: rest).drop pat.length)
        (by simp only [List.length_drop, List.length_cons]
            simp only [List.length_cons] at hsn
            omega) h2
    · rw [pyReplace_cons_neg c rest pat rep hpat hm]
      intro hc
      rcases ( List.infix_cons_iff).mp hc with hpre | hinf
      · rcases ( List.prefix_cons_iff).mp hpre with hnil | ⟨t, hxt, ht⟩
        · exact hpat hnil
        · have hdt : ∀ d ∈ rep, d ∉ t := by
            intro d hdm hdc
            exact hd d hdm (by rw [hxt]; exact List.mem_cons_of_mem _ hdc)
          have ht' : t <+: rest := prefix_pyReplace hpat hrep hdt ht
          have : pat <+: c :: rest := by
            rw [hxt]
            exact ( List.cons_prefix_cons).mpr ⟨rfl, ht'⟩
          exact hm (( List.isPrefixOf_iff_prefix).mpr this)
      · exact ih rest (by simp only [List.length_cons] at hsn; omega) hinf

theorem infix_of_infix_pyReplace {x s pat rep : List Char} (hpat : pat ≠ []) (hrep : rep ≠ [])
    (hd : ∀ c ∈ rep, c ∉ x) (h : x <:+: pyReplace s pat rep) : x <:+: s := by
  have hp1 : 1 ≤ pat.length := by
    cases pat with
    | nil => exact absurd rfl hpat
    | cons _ _ => simp
  suffices H : ∀ n s, s.length ≤ n → x <:+: pyReplace s pat rep → x <:+: s by
    exact H s.length s (Nat.le_refl _) h
  clear h s
  intro n
  induction n with
  | zero =>
    intro s hsn h
    have : s = [] := List.eq_nil_of_length_eq_zero (Nat.le_zero.mp hsn)
    subst this
    rw [pyReplace_nil _ _ hpat] at h
    rw [List.eq_nil_of_infix_nil h]
  | succ n ih =>
  intro s hsn h
  cases s with
  | nil =>
    rw [pyReplace_nil _ _ hpat] at h
    rw [List.eq_nil_of_infix_nil h]
  | cons c rest =>
    by_cases hxn : x = []
    · rw [hxn]; exact List.nil_infix
    by_cases hm : pat.isPrefixOf (c :: rest)
    · rw [pyReplace_cons_pos c rest pat rep hpat hm] at h
      have h2 : x <:+: pyReplace ((c :: rest).drop pat.length) pat rep :=
        infix_append_right_of_disjoint hxn hd h
      have h3 : x <:+: (c :: rest).drop pat.length :=
        ih ((c :: rest).drop pat.length)
          (by simp only [List.length_drop, List.length_cons]
              simp only [List.length_cons] at hsn
              omega) h2
      exact h3.trans ((List.drop_suffix _ _).isInfix)
    · rw [pyReplace_cons_neg c rest pat rep hpat hm] at h
      rcases ( List.infix_cons_iff).mp h with hpre | hinf
      · rcases ( List.prefix_cons_iff).mp hpre with hnil | ⟨t, hxt, ht⟩
        · exact absurd hnil hxn
        · have hdt : ∀ d ∈ rep, d ∉ t := by
            intro d hdm hdc
            exact hd d hdm (by rw [hxt]; exact List.mem_cons_of_mem _ hdc)
          have ht' : t <+: rest := prefix_pyReplace hpat hrep hdt ht
          have : x <+: c :: rest := by
            rw [hxt]
            exact ( List.cons_prefix_cons).mpr ⟨rfl, ht'⟩
          exact this.isInfix
      · have := ih rest (by simp only [List.length_cons] at hsn; omega) hinf
        exact this.trans (List.infix_cons (List.infix_refl _))

/-! ### The HEC stream sanitizer (`generate_logs`, lines 569-585) and the
scenario stream (`run_scenario`, lines 382-386) -/

/-- The replacement written for the secret token: the literal `'***'`. -/
def hecMask : List Char := "***".toList

/-- The replacement written for both destination URLs: the literal
`'<hec_url>'`. -/
def hecUrlPlaceholder : List Char := "<hec_url>".toList

/-- Lines 573-576 (and 581-584 for stderr): a captured line is sanitized by
`line.replace(hec_token, '***').replace(hec_url, '<hec_url>').replace(normalized_hec_url, '<hec_url>')`. -/
def sanitizeHecLine (hecToken hecUrl normalizedHecUrl line : List Char) : List Char :=
  pyReplace (pyReplace (pyReplace line hecToken hecMask) hecUrl hecUrlPlaceholder)
    normalizedHecUrl hecUrlPlaceholder

/-- The constant framing of the stderr block yielded at line 585:
`f"ERROR: HEC sender errors:\n{sanitized_err}\n"`. -/
def hecStderrPrefix : List Char := "ERROR: HEC sender errors:\n".toList

/-- The full stderr block yielded on the HEC path (line 585). -/
def hecStderrYield (hecToken hecUrl normalizedHecUrl errors : List Char) : List Char :=
  hecStderrPrefix ++ sanitizeHecLine hecToken hecUrl normalizedHecUrl errors ++ ['\n']

/-- Line 386 of `run_scenario`'s `generate_and_stream`: each child stdout line
is yielded verbatim, with no sanitisation at all. -/
def runScenarioYieldLine (line : List Char) : List Char := line

theorem hecUrlPlaceholder_ne_nil : hecUrlPlaceholder ≠ [] := by decide

theorem hecMask_ne_nil : hecMask ≠ [] := by decide

theorem not_infix_pyReplace_preserve {x s pat rep : List Char} (hpat : pat ≠ [])
    (hrep : rep ≠ []) (hd : ∀ c ∈ rep, c ∉ x) (h : ¬ x <:+: s) :
    ¬ x <:+: pyReplace s pat rep :=
  fun hc => h (infix_of_infix_pyReplace hpat hrep hd hc)

theorem sanitizeHecLine_clean {token url nurl : List Char} (line : List Char)
    (htok : token ≠ []) (hurl : url ≠ []) (hnurl : nurl ≠ [])
    (htM : ∀ c ∈ hecMask, c ∉ token)
    (htP : ∀ c ∈ hecUrlPlaceholder, c ∉ token)
    (huP : ∀ c ∈ hecUrlPlaceholder, c ∉ url)
    (hnP : ∀ c ∈ hecUrlPlaceholder, c ∉ nurl) :
    ¬ token <:+: sanitizeHecLine token url nurl line ∧
    ¬ url <:+: sanitizeHecLine token url nurl line ∧
    ¬ nurl <:+: sanitizeHecLine token url nurl line := by
  unfold sanitizeHecLine
  refine ⟨?_, ?_, ?_⟩
  · apply not_infix_pyReplace_preserve hnurl hecUrlPlaceholder_ne_nil htP
    apply not_infix_pyReplace_preserve hurl hecUrlPlaceholder_ne_nil htP
    exact not_infix_pyReplace_self htok hecMask_ne_nil htM
  · apply not_infix_pyReplace_preserve hnurl hecUrlPlaceholder_ne_nil huP
    exact not_infix_pyReplace_self hurl hecUrlPlaceholder_ne_nil huP
  · exact not_infix_pyReplace_self hnurl hecUrlPlaceholder_ne_nil hnP

theorem hecStderrYield_clean {token url nurl x : List Char} (errors : List Char)
    (hx : x ≠ []) (hE : ∀ c ∈ hecStderrPrefix, c ∉ x)
    (hS : ¬ x <:+: sanitizeHecLine token url nurl errors) :
    ¬ x <:+: hecStderrYield token url nurl errors := by
  intro hc
  unfold hecStderrYield at hc
  have hnl : ('\n' : Char) ∈ hecStderrPrefix := by decide
  have h1 : x <:+: hecStderrPrefix ++ sanitizeHecLine token url nurl errors := by
    apply infix_append_left_of_disjoint hx ?_ hc
    intro c hcm
    have : c = '\n' := by simpa using hcm
    rw [this]
    exact hE '\n' hnl
  exact hS (infix_append_right_of_disjoint hx hE h1)

/-- Claim C1, counterexample.  The claim quantifies over every known secret of
length at least 1.  Take the secret `"*"` (a length-1 token), raw URL `"U"`,
normalized URL `"V"`, and the captured stdout line `"*"`.  The sanitizer of
lines 573-576 rewrites the line to `"***"`, which still contains the secret
`"*"` as a substring, so the yielded line does contain the known secret. -/
theorem hec_sanitizer_leaks_length_one_secret :
    1 ≤ (['*'] : List Char).length ∧
    ['*'] <:+: sanitizeHecLine ['*'] ['U'] ['V'] ['*'] :=
  ⟨by decide, by decide⟩

/-- Claim C1, amended.  On the `generate_logs` HEC path, for every secret of
length ≥ 1 and raw/normalized URL none of which shares a character with the
replacement texts `'***'` and `'<hec_url>'` (and, for the stderr block, with
the constant framing `"ERROR: HEC sender errors:\n"`), the sanitized stdout
line and the sanitized stderr block yielded to the caller contain neither the
secret nor either URL as a substring; this covers both the stdout and stderr
capture paths.  (The `run_scenario` streaming path is excluded: line 386
yields child output verbatim.) -/
theorem hec_stream_sanitized (token url nurl line errors : List Char)
    (htok : token ≠ []) (hurl : url ≠ []) (hnurl : nurl ≠ [])
    (htM : ∀ c ∈ hecMask, c ∉ token)
    (htP : ∀ c ∈ hecUrlPlaceholder, c ∉ token)
    (huP : ∀ c ∈ hecUrlPlaceholder, c ∉ url)
    (hnP : ∀ c ∈ hecUrlPlaceholder, c ∉ nurl)
    (htE : ∀ c ∈ hecStderrPrefix, c ∉ token)
    (huE : ∀ c ∈ hecStderrPrefix, c ∉ url)
    (hnE : ∀ c ∈ hecStderrPrefix, c ∉ nurl) :
    (¬ token <:+: sanitizeHecLine token url nurl line) ∧
    (¬ url <:+: sanitizeHecLine token url nurl line) ∧
    (¬ nurl <:+: sanitizeHecLine token url nurl line) ∧
    (¬ token <:+: hecStderrYield token url nurl errors) ∧
    (¬ url <:+: hecStderrYield token url nurl errors) ∧
    (¬ nurl <:+: hecStderrYield token url nurl errors) := by
  obtain ⟨h1, h2, h3⟩ := sanitizeHecLine_clean line htok hurl hnurl htM htP huP hnP
  obtain ⟨g1, g2, g3⟩ := sanitizeHecLine_clean errors htok hurl hnurl htM htP huP hnP
  exact ⟨h1, h2, h3,
    hecStderrYield_clean errors htok htE g1,
    hecStderrYield_clean errors hurl huE g2,
    hecStderrYield_clean errors hnurl hnE g3⟩

/-- Witness for the amended C1 theorem at the secret `"XYZ"`, raw URL `"QQ1"`,
normalized URL `"QQ2"`, a stdout line and a stderr block that both mention all
three. -/
theorem hec_stream_sanitized_witness :
    (("XYZ".toList : List Char) ≠ [] ∧ ("QQ1".toList : List Char) ≠ [] ∧
      ("QQ2".toList : List Char) ≠ [] ∧
      (∀ c ∈ hecMask, c ∉ "XYZ".toList) ∧
      (∀ c ∈ hecUrlPlaceholder, c ∉ "XYZ".toList) ∧
      (∀ c ∈ hecUrlPlaceholder, c ∉ "QQ1".toList) ∧
      (∀ c ∈ hecUrlPlaceholder, c ∉ "QQ2".toList) ∧
      (∀ c ∈ hecStderrPrefix, c ∉ "XYZ".toList) ∧
      (∀ c ∈ hecStderrPrefix, c ∉ "QQ1".toList) ∧
      (∀ c ∈ hecStderrPrefix, c ∉ "QQ2".toList)) ∧
    (¬ "XYZ".toList <:+: sanitizeHecLine "XYZ".toList "QQ1".toList "QQ2".toList
        "sent XYZ to QQ1 QQ2".toList) ∧
    (¬ "QQ1".toList <:+: sanitizeHecLine "XYZ".toList "QQ1".toList "QQ2".toList
        "sent XYZ to QQ1 QQ2".toList) ∧
    (¬ "QQ2".toList <:+: sanitizeHecLine "XYZ".toList "QQ1".toList "QQ2".toList
        "sent XYZ to QQ1 QQ2".toList) ∧
    (¬ "XYZ".toList <:+: hecStderrYield "XYZ".toList "QQ1".toList "QQ2".toList
        "fail XYZ QQ1 QQ2".toList) ∧
    (¬ "QQ1".toList <:+: hecStderrYield "XYZ".toList "QQ1".toList "QQ2".toList
        "fail XYZ QQ1 QQ2".toList) ∧
    (¬ "QQ2".toList <:+: hecStderrYield "XYZ".toList "QQ1".toList "QQ2".toList
        "fail XYZ QQ1 QQ2".toList) := by
  refine ⟨⟨by decide, by decide, by decide, by decide, by decide, by decide, by decide,
    by decide, by decide, by decide⟩, ?_⟩
  have := hec_stream_sanitized "XYZ".toList "QQ1".toList "QQ2".toList
    "sent XYZ to QQ1 QQ2".toList "fail XYZ QQ1 QQ2".toList
    (by decide) (by decide) (by decide) (by decide) (by decide) (by decide)
    (by decide) (by decide) (by decide) (by decide)
  exact ⟨this.1, this.2.1, this.2.2.1, this.2.2.2.1, this.2.2.2.2.1, this.2.2.2.2.2⟩

/-! ### Destination registry (`log_generator_ui.py`, lines 114-211)

A destination record as stored in `destinations.json`.  Entries created by the
application carry `id`, `type`, `name` and either `url` (HEC) or
`ip`/`port`/`protocol` (syslog); a legacy entry loaded from disk may still
carry a plaintext `token` field, which the update path removes via
`existing.pop('token', None)`. -/
structure Dest where
  id : String
  dtype : String
  name : String
  url : Option String := none
  ip : Option String := none
  port : Option Nat := none
  protocol : Option String := none
  token : Option String := none
deriving DecidableEq

/-- The JSON body of a POST to `/destinations` (lines 136-154).  Absent keys
are `none`; `port` is modelled as the numeric value `int(port)` would produce. -/
structure Payload where
  ptype : Option String := none
  name : Option String := none
  url : Option String := none
  token : Option String := none
  ip : Option String := none
  port : Option Nat := none
  protocol : Option String := none
deriving DecidableEq

/-- Python truthiness of an optional string: `None` and `''` are falsy. -/
def truthyStr : Option String → Bool
  | none => false
  | some s => s != ""

/-- Python truthiness of an optional number: `None` and `0` are falsy. -/
def truthyNat : Option Nat → Bool
  | none => false
  | some n => n != 0

/-- Python `str.upper()` restricted to ASCII (the only letters compared here
are those of `tcp`/`udp`). -/
def upperStr (s : String) : String := ⟨s.data.map Char.toUpper⟩

/-- Python `url.rstrip('/')`: remove every trailing slash. -/
def rstripSlash (s : String) : String :=
  ⟨(s.data.reverse.dropWhile (fun c => c == '/')).reverse⟩

/-- Boolean suffix test on strings, via the character lists. -/
def strEndsWith (suf s : String) : Bool := suf.data.isSuffixOf s.data

/-- Boolean substring test on strings (`pat in s`), via the character lists. -/
def strContains (pat s : String) : Bool := decide (pat.data <:+: s.data)

/-- HEC URL normalization of lines 146-148: trim trailing slashes, then append
`/services/collector` unless the result already ends in `/event` or `/raw` or
contains `/services/collector`. -/
def normalizeHecBase (url : String) : String :=
  let base := rstripSlash url
  if strEndsWith "/event" base || strEndsWith "/raw" base ||
      strContains "/services/collector" base then base
  else base ++ "/services/collector"

/-- The response of `create_destination`: a JSON error with an HTTP status, the
201 payload of line 196, or the `UnboundLocalError` raised at line 196 when
`base` was never assigned (the syslog flow). -/
inductive CreateResp where
  | err (status : Nat) (msg : String)
  | created (id : String) (name : String) (dtype : String) (url : String)
  | unboundLocal
deriving DecidableEq

/-- Result of one `create_destination` call: the HTTP-level response together
with the contents of the destinations file after the call.  A failed
`_save_destinations` is modelled as leaving the previous contents. -/
structure CreateOutcome where
  resp : CreateResp
  file : List Dest
deriving DecidableEq

/-- The upsert matcher of line 160: first entry with the same `name` and
`type`. -/
def destMatches (name dtype : String) (d : Dest) : Bool :=
  d.name == name && d.dtype == dtype

/-- In-place mutation of the first matching entry, as performed on the dict
returned by `next(...)` at line 160. -/
def replaceFirst (p : Dest → Bool) (f : Dest → Dest) : List Dest → List Dest
  | [] => []
  | d :: r => if p d then f d :: r else d :: replaceFirst p f r

/-- Lines 193-196: persist the list, then build the 201 response that reads
the local variable `base` — which is only ever assigned in the HEC branch, so
the syslog flow raises `UnboundLocalError` here (after the save). -/
def finishCreate (saveOk : Bool) (destId name dtype : String) (base : Option String)
    (origItems newItems : List Dest) : CreateOutcome :=
  if saveOk then
    match base with
    | some b => { resp := .created destId name dtype b, file := newItems }
    | none => { resp := .unboundLocal, file := newItems }
  else { resp := .err 500 "Failed to save destination", file := origItems }

/-- `create_destination` (lines 134-196).  External effects are explicit:
`hasKeyring` is the module flag `HAS_KEYRING`, `setPasswordOk` tells whether
`keyring.set_password` succeeds, `saveOk` whether `_save_destinations`
succeeds, and `items` is the list loaded from the destinations file. -/
def create_destination (hasKeyring setPasswordOk saveOk : Bool)
    (payload : Payload) (items : List Dest) : CreateOutcome :=
  if payload.ptype = some "hec" then
    if truthyStr payload.name && truthyStr payload.url && truthyStr payload.token then
      let name := payload.name.getD ""
      let token := payload.token.getD ""
      let base := normalizeHecBase (payload.url.getD "")
      match items.find? (destMatches name "hec") with
      | some existing =>
        if !hasKeyring || existing.id == "" then
          { resp := .err 500 "Secure storage unavailable. Unable to save token. Please contact support.",
            file := items }
        else if !setPasswordOk then
          { resp := .err 500 "Failed to save token securely. Please contact support.",
            file := items }
        else
          finishCreate saveOk existing.id name "hec" (some base) items
            (replaceFirst (destMatches name "hec")
              (fun d => { d with url := some base, token := none }) items)
      | none =>
        let destId := "hec:" ++ Nat.repr (items.length + 1)
        if !hasKeyring then
          { resp := .err 500 "Secure storage unavailable. Unable to save token. Please contact support.",
            file := items }
        else if !setPasswordOk then
          { resp := .err 500 "Failed to save token securely. Please contact support.",
            file := items }
        else
          finishCreate saveOk destId name "hec" (some base) items
            (items ++ [{ id := destId, dtype := "hec", name := name, url := some base }])
    else { resp := .err 400 "name, url and token are required", file := items }
  else if payload.ptype = some "syslog" then
    let protocol := upperStr ((payload.protocol).getD "")
    if truthyStr payload.name && truthyStr payload.ip && truthyNat payload.port &&
        (protocol == "UDP" || protocol == "TCP") then
      let name := payload.name.getD ""
      let ip := payload.ip.getD ""
      let port := payload.port.getD 0
      match items.find? (destMatches name "syslog") with
      | some existing =>
        finishCreate saveOk existing.id name "syslog" none items
          (replaceFirst (destMatches name "syslog")
            (fun d => { d with ip := some ip, port := some port,
                               protocol := some protocol }) items)
      | none =>
        let destId := "syslog:" ++ Nat.repr (items.length + 1)
        finishCreate saveOk destId name "syslog" none items
          (items ++ [{ id := destId, dtype := "syslog", name := name,
                       ip := some ip, port := some port, protocol := some protocol }])
    else { resp := .err 400 "name, ip, port, protocol (UDP/TCP) are required", file := items }
  else { resp := .err 400 "Unsupported destination type", file := items }

/-- `delete_destination` (lines 198-211): best-effort keyring delete (no
observable registry effect), then remove every entry with the given id and
save.  Returns the optional error body and the resulting file contents. -/
def delete_destination (saveOk : Bool) (destId : String) (items : List Dest) :
    Option String × List Dest :=
  let newItems := items.filter (fun d => !(d.id == destId))
  if saveOk then (none, newItems) else (some "Failed to delete destination", items)

/-! ### List lemmas about `replaceFirst` -/

theorem find?_replaceFirst (p : Dest → Bool) (f : Dest → Dest)
    (hp : ∀ d, p d = true → p (f d) = true) :
    ∀ l : List Dest, (replaceFirst p f l).find? p = (l.find? p).map f := by
  intro l
  induction l with
  | nil => rfl
  | cons d r ih =>
    by_cases h : p d
    · simp [replaceFirst, h, List.find?_cons_of_pos _ (hp d h), List.find?_cons_of_pos _ h]
    · simp only [replaceFirst, if_neg h, List.find?_cons_of_neg _ h, ih]

theorem replaceFirst_append_left (p : Dest → Bool) (f : Dest → Dest)
    {l : List Dest} (h : l.find? p = none) (m : List Dest) :
    replaceFirst p f (l ++ m) = l ++ replaceFirst p f m := by
  induction l with
  | nil => rfl
  | cons d r ih =>
    have hd : ¬ p d := by
      have := ( List.find?_eq_none).mp h d (List.mem_cons_self _ _)
      simpa using this
    have hr : r.find? p = none := by
      rw [List.find?_cons_of_neg _ hd] at h
      exact h
    simp [replaceFirst, hd, ih hr]

theorem replaceFirst_idem (p : Dest → Bool) (f : Dest → Dest)
    (hp : ∀ d, p d = true → p (f d) = true)
    (hf : ∀ d, f (f d) = f d) :
    ∀ l : List Dest, replaceFirst p f (replaceFirst p f l) = replaceFirst p f l := by
  intro l
  induction l with
  | nil => rfl
  | cons d r ih =>
    by_cases h : p d
    · simp [replaceFirst, h, hp d h, hf d]
    · simp [replaceFirst, h, ih]

theorem length_filter_replaceFirst (p : Dest → Bool) (f : Dest → Dest)
    (hp : ∀ d, p d = true → p (f d) = true) :
    ∀ l : List Dest,
      ((replaceFirst p f l).filter p).length = (l.filter p).length := by
  intro l
  induction l with
  | nil => rfl
  | cons d r ih =>
    by_cases h : p d
    · simp [replaceFirst, h, List.filter_cons, hp d h]
    · simp [replaceFirst, h, List.filter_cons, ih]

theorem one_le_length_filter_of_find? {p : Dest → Bool} {l : List Dest} {d : Dest}
    (h : l.find? p = some d) : 1 ≤ (l.filter p).length := by
  have hd : d ∈ l.filter p :=
    List.mem_filter.mpr ⟨List.mem_of_find?_eq_some h, List.find?_some h⟩
  exact List.length_pos.mpr (List.ne_nil_of_mem hd)

/-- Claim C2: for every HEC create or update, if the secure store is
unavailable (`HAS_KEYRING` false, or the matched entry has no usable id) or
the secret write fails, the whole operation fails: the destinations file is
left exactly as it was (so neither a descriptor nor the secret reaches the
plaintext file), and the caller receives a 500 with one of the two fixed
generic messages — constants that do not depend on the swallowed store
exception. -/
theorem hec_secret_store_failure_fails_closed
    (hasKeyring setPasswordOk saveOk : Bool) (payload : Payload) (items : List Dest)
    (hty : payload.ptype = some "hec")
    (hname : truthyStr payload.name = true)
    (hurl : truthyStr payload.url = true)
    (htok : truthyStr payload.token = true)
    (hfail : hasKeyring = false ∨ setPasswordOk = false) :
    (create_destination hasKeyring setPasswordOk saveOk payload items).file = items ∧
    ((create_destination hasKeyring setPasswordOk saveOk payload items).resp =
        .err 500 "Secure storage unavailable. Unable to save token. Please contact support." ∨
      (create_destination hasKeyring setPasswordOk saveOk payload items).resp =
        .err 500 "Failed to save token securely. Please contact support.") := by
  unfold create_destination
  rw [hty]
  simp only [if_pos rfl, hname, hurl, htok, Bool.and_self, Bool.true_and, if_true]
  cases hfind : items.find? (destMatches (payload.name.getD "") "hec") with
  | some existing =>
    rcases hfail with hk | hs
    · subst hk
      simp
    · subst hs
      by_cases hid : existing.id == ""
      · simp [hid]
      · by_cases hk : hasKeyring
        · simp [hid, hk]
        · simp [hid, hk]
  | none =>
    rcases hfail with hk | hs
    · subst hk
      simp
    · subst hs
      by_cases hk : hasKeyring
      · simp [hk]
      · simp [hk]

/-- The HEC payload of the specification's worked scenario: name `prod`,
URL `https://example.com`, token `abc`. -/
def prodHecPayload : Payload :=
  { ptype := some "hec", name := some "prod", url := some "https://example.com", token := some "abc" }

/-- Witness for C2: the concrete valid HEC payload `prodHecPayload` against an
empty registry with the keyring module missing. -/
theorem hec_secret_store_failure_fails_closed_witness :
    (prodHecPayload.ptype = some "hec" ∧
      truthyStr prodHecPayload.name = true ∧ truthyStr prodHecPayload.url = true ∧
      truthyStr prodHecPayload.token = true ∧
      ((false : Bool) = false ∨ (true : Bool) = false)) ∧
    ((create_destination false true true prodHecPayload []).file = [] ∧
      ((create_destination false true true prodHecPayload []).resp =
          .err 500 "Secure storage unavailable. Unable to save token. Please contact support." ∨
        (create_destination false true true prodHecPayload []).resp =
          .err 500 "Failed to save token securely. Please contact support.")) := by
  constructor
  · exact ⟨rfl, by decide, by decide, by decide, Or.inl rfl⟩
  · exact hec_secret_store_failure_fails_closed false true true prodHecPayload []
      rfl (by decide) (by decide) (by decide) (Or.inl rfl)

/-- The syslog payload of the specification's worked scenario:
`{name:"d1", ip:"10.0.0.5", port:514, protocol:"udp"}`. -/
def d1SyslogPayload : Payload :=
  { ptype := some "syslog", name := some "d1", ip := some "10.0.0.5", port := some 514,
    protocol := some "udp" }

/-- Claim C3, code bug.  A valid syslog upsert is validated and persisted with
its protocol normalized to upper case, but the handler then crashes: the 201
response at line 196 reads the local variable `base`, which is assigned only
in the HEC branch, so the syslog flow raises `UnboundLocalError` (an HTTP 500)
instead of returning the stored destination.  The rejection of any other
protocol value as a 400 validation error does hold. -/
theorem syslog_upsert_persists_then_crashes :
    (create_destination true true true d1SyslogPayload []).resp = CreateResp.unboundLocal ∧
    (create_destination true true true d1SyslogPayload []).file =
      [{ id := "syslog:1", dtype := "syslog", name := "d1", ip := some "10.0.0.5",
         port := some 514, protocol := some "UDP" }] ∧
    (create_destination true true true
        { d1SyslogPayload with protocol := some "icmp" } []).resp =
      CreateResp.err 400 "name, ip, port, protocol (UDP/TCP) are required" := by
  refine ⟨by decide, by decide, by decide⟩

/-- The URL normalization rule exactly as the specification words it: trim
trailing slashes and, when the trimmed URL neither ends in `/event` or `/raw`
nor contains `/services/collector`, append `/services/collector`; otherwise
keep the trimmed URL unchanged. -/
def specNormalizedHecUrl (u : String) : String :=
  let trimmed := rstripSlash u
  if strEndsWith "/event" trimmed = false ∧ strEndsWith "/raw" trimmed = false ∧
      strContains "/services/collector" trimmed = false
  then trimmed ++ "/services/collector"
  else trimmed

theorem specNormalizedHecUrl_eq (u : String) :
    specNormalizedHecUrl u = normalizeHecBase u := by
  unfold specNormalizedHecUrl normalizeHecBase
  by_cases h1 : strEndsWith "/event" (rstripSlash u) <;>
    by_cases h2 : strEndsWith "/raw" (rstripSlash u) <;>
      by_cases h3 : strContains "/services/collector" (rstripSlash u) <;>
        simp [h1, h2, h3]

theorem destMatches_of_update (name : String) (dtype : String) (base : String) :
    ∀ d : Dest, destMatches name dtype d = true →
      destMatches name dtype { d with url := some base, token := none } = true := by
  intro d hd
  simpa [destMatches] using hd

/-- Claim C4: a successful HEC upsert (both the update branch and the insert
branch) stores and returns exactly the URL described by the specification:
the input URL with trailing slashes trimmed, with `/services/collector`
appended unless the trimmed URL already ends in `/event` or `/raw` or contains
`/services/collector`.  The stored entry also carries no plaintext token. -/
theorem hec_upsert_url_normalization (payload : Payload) (items : List Dest)
    (hty : payload.ptype = some "hec")
    (hname : truthyStr payload.name = true)
    (hurl : truthyStr payload.url = true)
    (htok : truthyStr payload.token = true)
    (hids : ∀ d ∈ items, d.id ≠ "") :
    (∃ i, (create_destination true true true payload items).resp =
        CreateResp.created i (payload.name.getD "") "hec"
          (specNormalizedHecUrl (payload.url.getD ""))) ∧
    (∃ d, ((create_destination true true true payload items).file).find?
          (destMatches (payload.name.getD "") "hec") = some d ∧
        d.url = some (specNormalizedHecUrl (payload.url.getD "")) ∧ d.token = none) := by
  rw [specNormalizedHecUrl_eq]
  cases hfind : items.find? (destMatches (payload.name.getD "") "hec") with
  | some existing =>
    have hid : (existing.id == "") = false := by
      have := hids existing (List.mem_of_find?_eq_some hfind)
      simpa using this
    have hout : create_destination true true true payload items =
        { resp := CreateResp.created existing.id (payload.name.getD "") "hec"
            (normalizeHecBase (payload.url.getD "")),
          file := replaceFirst (destMatches (payload.name.getD "") "hec")
            (fun d => { d with
                        url := some (normalizeHecBase (payload.url.getD "")),
                        token := none }) items } := by
      unfold create_destination
      rw [hty]
      simp [hname, hurl, htok, hfind, hid, finishCreate]
    rw [hout]
    refine ⟨⟨existing.id, rfl⟩,
      ⟨{ existing with
         url := some (normalizeHecBase (payload.url.getD "")),
         token := none }, ?_, rfl, rfl⟩⟩
    rw [find?_replaceFirst _ _ (destMatches_of_update _ _ _) items, hfind]
    rfl
  | none =>
    have hout : create_destination true true true payload items =
        { resp := CreateResp.created ("hec:" ++ Nat.repr (items.length + 1))
            (payload.name.getD "") "hec" (normalizeHecBase (payload.url.getD "")),
          file := items ++
            [{ id := "hec:" ++ Nat.repr (items.length + 1), dtype := "hec",
               name := payload.name.getD "",
               url := some (normalizeHecBase (payload.url.getD "")) }] } := by
      unfold create_destination
      rw [hty]
      simp [hname, hurl, htok, hfind, finishCreate]
    rw [hout]
    refine ⟨⟨"hec:" ++ Nat.repr (items.length + 1), rfl⟩,
      ⟨({ id := "hec:" ++ Nat.repr (items.length + 1), dtype := "hec",
          name := payload.name.getD "",
          url := some (normalizeHecBase (payload.url.getD "")) } : Dest), ?_, rfl, rfl⟩⟩
    rw [List.find?_append, hfind]
    simp [destMatches]

/-- Witness for C4: the specification's worked scenario — submitting
`{name:"prod", url:"https://example.com", token:"abc"}` yields the URL
`https://example.com/services/collector`. -/
theorem hec_upsert_url_normalization_witness :
    (prodHecPayload.ptype = some "hec" ∧ truthyStr prodHecPayload.name = true ∧
      truthyStr prodHecPayload.url = true ∧ truthyStr prodHecPayload.token = true ∧
      (∀ d ∈ ([] : List Dest), d.id ≠ "")) ∧
    specNormalizedHecUrl "https://example.com" = "https://example.com/services/collector" ∧
    (∃ i, (create_destination true true true prodHecPayload []).resp =
        CreateResp.created i "prod" "hec" (specNormalizedHecUrl "https://example.com")) ∧
    (∃ d, ((create_destination true true true prodHecPayload []).file).find?
          (destMatches "prod" "hec") = some d ∧
        d.url = some (specNormalizedHecUrl "https://example.com") ∧ d.token = none) := by
  refine ⟨⟨rfl, by decide, by decide, by decide, by intro d hd; cases hd⟩, by decide, ?_⟩
  exact hec_upsert_url_normalization prodHecPayload [] rfl (by decide) (by decide)
    (by decide) (by intro d hd; cases hd)

theorem prefixed_id_ne_empty (pre s : String) (hp : pre.length ≠ 0) : (pre ++ s) ≠ "" := by
  intro h
  have hl := congrArg String.length h
  simp only [String.length_append] at hl
  have h0 : ("" : String).length = 0 := rfl
  rw [h0] at hl
  omega

theorem destMatches_of_update_syslog (name : String) (dtype ip : String) (port : Nat)
    (protocol : String) :
    ∀ d : Dest, destMatches name dtype d = true →
      destMatches name dtype
        { d with ip := some ip, port := some port, protocol := some protocol } = true := by
  intro d hd
  simpa [destMatches] using hd

/-- The fresh entry appended by the HEC insert branch (lines 179-181). -/
def newHecEntry (name base : String) (n : Nat) : Dest :=
  { id := "hec:" ++ Nat.repr n, dtype := "hec", name := name, url := some base }

/-- The update applied to a matched HEC entry (lines 163-169). -/
def hecUpdate (base : String) (d : Dest) : Dest :=
  { d with url := some base, token := none }

theorem upsert_idem_hec (payload : Payload) (items : List Dest)
    (hty : payload.ptype = some "hec")
    (hname : truthyStr payload.name = true)
    (hurl : truthyStr payload.url = true)
    (htok : truthyStr payload.token = true)
    (hids : ∀ d ∈ items, d.id ≠ "")
    (hdup : (items.filter (destMatches (payload.name.getD "") "hec")).length ≤ 1) :
    (create_destination true true true payload
        (create_destination true true true payload items).file).file =
      (create_destination true true true payload items).file ∧
    (((create_destination true true true payload items).file).filter
        (destMatches (payload.name.getD "") "hec")).length = 1 := by
  have hpres := destMatches_of_update (payload.name.getD "") "hec"
    (normalizeHecBase (payload.url.getD ""))
  cases hfind : items.find? (destMatches (payload.name.getD "") "hec") with
  | some ex =>
    have hid : (ex.id == "") = false := by
      have := hids ex (List.mem_of_find?_eq_some hfind)
      simpa using this
    have hfile1 : (create_destination true true true payload items).file =
        replaceFirst (destMatches (payload.name.getD "") "hec")
          (fun d => { d with
                      url := some (normalizeHecBase (payload.url.getD "")),
                      token := none }) items := by
      unfold create_destination
      rw [hty]
      simp [hname, hurl, htok, hfind, hid, finishCreate]
    have hfind1 : (replaceFirst (destMatches (payload.name.getD "") "hec")
        (fun d => { d with
                    url := some (normalizeHecBase (payload.url.getD "")),
                    token := none }) items).find?
          (destMatches (payload.name.getD "") "hec") =
        some { ex with
               url := some (normalizeHecBase (payload.url.getD "")),
               token := none } := by
      rw [find?_replaceFirst _ _ hpres items, hfind]
      rfl
    have hid1 : (({ ex with
        url := some (normalizeHecBase (payload.url.getD "")),
        token := none } : Dest).id == "") = false := hid
    have hfile2 : (create_destination true true true payload
        (replaceFirst (destMatches (payload.name.getD "") "hec")
          (fun d => { d with
                      url := some (normalizeHecBase (payload.url.getD "")),
                      token := none }) items)).file =
        replaceFirst (destMatches (payload.name.getD "") "hec")
          (fun d => { d with
                      url := some (normalizeHecBase (payload.url.getD "")),
                      token := none })
          (replaceFirst (destMatches (payload.name.getD "") "hec")
            (fun d => { d with
                        url := some (normalizeHecBase (payload.url.getD "")),
                        token := none }) items) := by
      unfold create_destination
      rw [hty]
      simp [hname, hurl, htok, hfind1, hid1, finishCreate]
    constructor
    · rw [hfile1, hfile2]
      exact replaceFirst_idem _ _ hpres (fun d => rfl) items
    · rw [hfile1, length_filter_replaceFirst _ _ hpres]
      have := one_le_length_filter_of_find? hfind
      omega
  | none =>
    have hpe : destMatches (payload.name.getD "") "hec"
        (newHecEntry (payload.name.getD "") (normalizeHecBase (payload.url.getD ""))
          (items.length + 1)) = true := by
      simp [destMatches, newHecEntry]
    have hfile1 : (create_destination true true true payload items).file =
        items ++ [newHecEntry (payload.name.getD "") (normalizeHecBase (payload.url.getD ""))
          (items.length + 1)] := by
      unfold create_destination
      rw [hty]
      simp [hname, hurl, htok, hfind, finishCreate, newHecEntry]
    have hfind1 : (items ++ [newHecEntry (payload.name.getD "")
          (normalizeHecBase (payload.url.getD "")) (items.length + 1)]).find?
          (destMatches (payload.name.getD "") "hec") =
        some (newHecEntry (payload.name.getD "") (normalizeHecBase (payload.url.getD ""))
          (items.length + 1)) := by
      rw [List.find?_append, hfind]
      simp [hpe]
    have hid1 : ((newHecEntry (payload.name.getD "") (normalizeHecBase (payload.url.getD ""))
        (items.length + 1)).id == "") = false := by
      have := prefixed_id_ne_empty "hec:" (Nat.repr (items.length + 1)) (by decide)
      simpa [newHecEntry] using this
    have hfile2 : (create_destination true true true payload
        (items ++ [newHecEntry (payload.name.getD "")
          (normalizeHecBase (payload.url.getD "")) (items.length + 1)])).file =
        replaceFirst (destMatches (payload.name.getD "") "hec")
          (fun d => { d with
                      url := some (normalizeHecBase (payload.url.getD "")),
                      token := none })
          (items ++ [newHecEntry (payload.name.getD "")
            (normalizeHecBase (payload.url.getD "")) (items.length + 1)]) := by
      unfold create_destination
      rw [hty]
      simp [hname, hurl, htok, hfind1, hid1, finishCreate]
    constructor
    · rw [hfile1, hfile2, replaceFirst_append_left _ _ hfind]
      simp [replaceFirst, hpe, newHecEntry]
    · rw [hfile1, List.filter_append]
      have hnil : items.filter (destMatches (payload.name.getD "") "hec") = [] := by
        rw [List.filter_eq_nil_iff]
        intro d hd
        have := ( List.find?_eq_none).mp hfind d hd
        simpa using this
      simp [hnil, hpe]

/-- The fresh entry appended by the syslog insert branch (line 190). -/
def newSyslogEntry (name ip : String) (port : Nat) (protocol : String) (n : Nat) : Dest :=
  { id := "syslog:" ++ Nat.repr n, dtype := "syslog", name := name,
    ip := some ip, port := some port, protocol := some protocol }

theorem upsert_idem_syslog (hasKeyring setPasswordOk : Bool)
    (payload : Payload) (items : List Dest)
    (hty : payload.ptype = some "syslog")
    (hname : truthyStr payload.name = true)
    (hip : truthyStr payload.ip = true)
    (hport : truthyNat payload.port = true)
    (hproto : (upperStr (payload.protocol.getD "") == "UDP" ||
        upperStr (payload.protocol.getD "") == "TCP") = true)
    (hdup : (items.filter (destMatches (payload.name.getD "") "syslog")).length ≤ 1) :
    (create_destination hasKeyring setPasswordOk true payload
        (create_destination hasKeyring setPasswordOk true payload items).file).file =
      (create_destination hasKeyring setPasswordOk true payload items).file ∧
    (((create_destination hasKeyring setPasswordOk true payload items).file).filter
        (destMatches (payload.name.getD "") "syslog")).length = 1 := by
  have hpres := destMatches_of_update_syslog (payload.name.getD "") "syslog"
    (payload.ip.getD "") (payload.port.getD 0) (upperStr (payload.protocol.getD ""))
  cases hfind : items.find? (destMatches (payload.name.getD "") "syslog") with
  | some ex =>
    have hfile1 : (create_destination hasKeyring setPasswordOk true payload items).file =
        replaceFirst (destMatches (payload.name.getD "") "syslog")
          (fun d => { d with
                      ip := some (payload.ip.getD ""), port := some (payload.port.getD 0),
                      protocol := some (upperStr (payload.protocol.getD "")) }) items := by
      unfold create_destination
      rw [hty]
      simp [hname, hip, hport, hproto, hfind, finishCreate]
    have hfind1 : (replaceFirst (destMatches (payload.name.getD "") "syslog")
        (fun d => { d with
                    ip := some (payload.ip.getD ""), port := some (payload.port.getD 0),
                    protocol := some (upperStr (payload.protocol.getD "")) }) items).find?
          (destMatches (payload.name.getD "") "syslog") =
        some { ex with
               ip := some (payload.ip.getD ""), port := some (payload.port.getD 0),
               protocol := some (upperStr (payload.protocol.getD "")) } := by
      rw [find?_replaceFirst _ _ hpres items, hfind]
      rfl
    have hfile2 : (create_destination hasKeyring setPasswordOk true payload
        (replaceFirst (destMatches (payload.name.getD "") "syslog")
          (fun d => { d with
                      ip := some (payload.ip.getD ""), port := some (payload.port.getD 0),
                      protocol := some (upperStr (payload.protocol.getD "")) }) items)).file =
        replaceFirst (destMatches (payload.name.getD "") "syslog")
          (fun d => { d with
                      ip := some (payload.ip.getD ""), port := some (payload.port.getD 0),
                      protocol := some (upperStr (payload.protocol.getD "")) })
          (replaceFirst (destMatches (payload.name.getD "") "syslog")
            (fun d => { d with
                        ip := some (payload.ip.getD ""), port := some (payload.port.getD 0),
                        protocol := some (upperStr (payload.protocol.getD "")) }) items) := by
      unfold create_destination
      rw [hty]
      simp [hname, hip, hport, hproto, hfind1, finishCreate]
    constructor
    · rw [hfile1, hfile2]
      exact replaceFirst_idem _ _ hpres (fun d => rfl) items
    · rw [hfile1, length_filter_replaceFirst _ _ hpres]
      have := one_le_length_filter_of_find? hfind
      omega
  | none =>
    have hpe : destMatches (payload.name.getD "") "syslog"
        (newSyslogEntry (payload.name.getD "") (payload.ip.getD "") (payload.port.getD 0)
          (upperStr (payload.protocol.getD "")) (items.length + 1)) = true := by
      simp [destMatches, newSyslogEntry]
    have hfile1 : (create_destination hasKeyring setPasswordOk true payload items).file =
        items ++ [newSyslogEntry (payload.name.getD "") (payload.ip.getD "")
          (payload.port.getD 0) (upperStr (payload.protocol.getD "")) (items.length + 1)] := by
      unfold create_destination
      rw [hty]
      simp [hname, hip, hport, hproto, hfind, finishCreate, newSyslogEntry]
    have hfind1 : (items ++ [newSyslogEntry (payload.name.getD "") (payload.ip.getD "")
          (payload.port.getD 0) (upperStr (payload.protocol.getD "")) (items.length + 1)]).find?
          (destMatches (payload.name.getD "") "syslog") =
        some (newSyslogEntry (payload.name.getD "") (payload.ip.getD "")
          (payload.port.getD 0) (upperStr (payload.protocol.getD "")) (items.length + 1)) := by
      rw [List.find?_append, hfind]
      simp [hpe]
    have hfile2 : (create_destination hasKeyring setPasswordOk true payload
        (items ++ [newSyslogEntry (payload.name.getD "") (payload.ip.getD "")
          (payload.port.getD 0) (upperStr (payload.protocol.getD "")) (items.length + 1)])).file =
        replaceFirst (destMatches (payload.name.getD "") "syslog")
          (fun d => { d with
                      ip := some (payload.ip.getD ""), port := some (payload.port.getD 0),
                      protocol := some (upperStr (payload.protocol.getD "")) })
          (items ++ [newSyslogEntry (payload.name.getD "") (payload.ip.getD "")
            (payload.port.getD 0) (upperStr (payload.protocol.getD "")) (items.length + 1)]) := by
      unfold create_destination
      rw [hty]
      simp [hname, hip, hport, hproto, hfind1, finishCreate]
    constructor
    · rw [hfile1, hfile2, replaceFirst_append_left _ _ hfind]
      simp [replaceFirst, hpe, newSyslogEntry]
    · rw [hfile1, List.filter_append]
      have hnil : items.filter (destMatches (payload.name.getD "") "syslog") = [] := by
        rw [List.filter_eq_nil_iff]
        intro d hd
        have := ( List.find?_eq_none).mp hfind d hd
        simpa using this
      simp [hnil, hpe]

/-- Claim C5: submitting the same valid destination payload twice in a row is
idempotent at the registry level — the persisted file after the second upsert
equals the file after the first, and exactly one destination exists for the
payload's `(name, type)` pair.  The hypotheses state payload validity (with a
working secret store in the HEC case), that stored ids are usable, and the
registry invariant that the pair occurs at most once before the calls. -/
theorem upsert_idempotent (hasKeyring setPasswordOk : Bool)
    (payload : Payload) (items : List Dest)
    (hv : (payload.ptype = some "hec" ∧ truthyStr payload.name = true ∧
            truthyStr payload.url = true ∧ truthyStr payload.token = true ∧
            hasKeyring = true ∧ setPasswordOk = true) ∨
          (payload.ptype = some "syslog" ∧ truthyStr payload.name = true ∧
            truthyStr payload.ip = true ∧ truthyNat payload.port = true ∧
            (upperStr (payload.protocol.getD "") == "UDP" ||
              upperStr (payload.protocol.getD "") == "TCP") = true))
    (hids : ∀ d ∈ items, d.id ≠ "")
    (hdup : (items.filter
        (destMatches (payload.name.getD "") (payload.ptype.getD ""))).length ≤ 1) :
    (create_destination hasKeyring setPasswordOk true payload
        (create_destination hasKeyring setPasswordOk true payload items).file).file =
      (create_destination hasKeyring setPasswordOk true payload items).file ∧
    (((create_destination hasKeyring setPasswordOk true payload items).file).filter
        (destMatches (payload.name.getD "") (payload.ptype.getD ""))).length = 1 := by
  rcases hv with ⟨hty, hn, hu, ht, hk, hs⟩ | ⟨hty, hn, hi, hp, hpr⟩
  · subst hk hs
    have h1 := upsert_idem_hec payload items hty hn hu ht hids (by simpa [hty] using hdup)
    simpa [hty] using h1
  · have h1 := upsert_idem_syslog hasKeyring setPasswordOk payload items hty hn hi hp hpr
      (by simpa [hty] using hdup)
    simpa [hty] using h1

/-- Witness for C5: the worked HEC scenario payload submitted twice against an
empty registry. -/
theorem upsert_idempotent_witness :
    ((prodHecPayload.ptype = some "hec" ∧ truthyStr prodHecPayload.name = true ∧
        truthyStr prodHecPayload.url = true ∧ truthyStr prodHecPayload.token = true ∧
        (true : Bool) = true ∧ (true : Bool) = true) ∧
      (∀ d ∈ ([] : List Dest), d.id ≠ "") ∧
      (([] : List Dest).filter
        (destMatches (prodHecPayload.name.getD "") (prodHecPayload.ptype.getD ""))).length ≤ 1) ∧
    ((create_destination true true true prodHecPayload
        (create_destination true true true prodHecPayload []).file).file =
      (create_destination true true true prodHecPayload []).file ∧
    (((create_destination true true true prodHecPayload []).file).filter
        (destMatches (prodHecPayload.name.getD "") (prodHecPayload.ptype.getD ""))).length = 1) := by
  refine ⟨⟨⟨rfl, by decide, by decide, by decide, rfl, rfl⟩, ?_, by decide⟩, ?_⟩
  · intro d hd
    cases hd
  exact upsert_idempotent true true prodHecPayload []
    (Or.inl ⟨rfl, by decide, by decide, by decide, rfl, rfl⟩)
    (by intro d hd; cases hd) (by decide)

/-- A syslog payload with the given name used by the id-collision scenario. -/
def syslogPayloadNamed (n : String) : Payload :=
  { ptype := some "syslog", name := some n, ip := some "10.0.0.1", port := some 514,
    protocol := some "udp" }

/-- Claim C10: destination id uniqueness is not an invariant.  Create `a`,
create `b` (same type, different name), delete `a`, create `c`: the new id is
computed as `syslog:` followed by the current list length plus one, so `c`
receives the id `syslog:2` already carried by `b`, and two persisted
destinations share an id. -/
theorem destination_ids_can_collide :
    ((create_destination true true true (syslogPayloadNamed "c")
        (delete_destination true "syslog:1"
          (create_destination true true true (syslogPayloadNamed "b")
            (create_destination true true true (syslogPayloadNamed "a") []).file).file).2).file).map
        Dest.id = ["syslog:2", "syslog:2"] ∧
    ((create_destination true true true (syslogPayloadNamed "c")
        (delete_destination true "syslog:1"
          (create_destination true true true (syslogPayloadNamed "b")
            (create_destination true true true (syslogPayloadNamed "a") []).file).file).2).file).map
        Dest.name = ["b", "c"] := by
  refine ⟨by decide, by decide⟩

/-! ### Format classifier (`vibelog_ui.py`, `detect_log_format`, lines 79-87) -/

/-- The two possible classification results. -/
inductive LogFormat where
  | JSON
  | RAW
deriving DecidableEq

/-- The opening brace character (written with its code point to keep braces
out of character literals). -/
def obr : Char := '\x7b'

/-- The closing brace character. -/
def cbr : Char := '\x7d'

/-- Counts the matches of Python's `re.findall` for the non-nested brace
pattern of line 81 (an opening brace, a run of non-brace characters, a closing
brace), scanning left to right without overlap.  The boolean state records
whether the most recent brace character seen was an opening brace with only
non-brace characters after it — exactly when the engine is inside a candidate
match. -/
def countFlatBraceAux : Bool → List Char → Nat
  | _, [] => 0
  | false, c :: r =>
    if c = obr then countFlatBraceAux true r else countFlatBraceAux false r
  | true, c :: r =>
    if c = cbr then 1 + countFlatBraceAux false r
    else if c = obr then countFlatBraceAux true r
    else countFlatBraceAux true r

/-- Number of matches of the non-nested pattern in the whole text. -/
def countFlatBrace (s : List Char) : Nat := countFlatBraceAux false s

/-- `detect_log_format` (lines 79-87): more than two matches classifies the
output as JSON, anything else as RAW. -/
def detect_log_format (output : List Char) : LogFormat :=
  if 2 < countFlatBrace output then LogFormat.JSON else LogFormat.RAW

/-- Spec-side count, following the specification's words: a non-nested
brace-delimited substring is an opening brace whose next brace character is a
closing brace; `specFlatBraceCount` counts those opening braces. -/
def nextBraceCloses : List Char → Bool
  | [] => false
  | c :: r => if c = cbr then true else if c = obr then false else nextBraceCloses r

/-- Counts the non-nested brace-delimited substrings of the text, one per
opening brace whose following brace character closes it. -/
def specFlatBraceCount : List Char → Nat
  | [] => 0
  | c :: r =>
    if c = obr then (if nextBraceCloses r then 1 else 0) + specFlatBraceCount r
    else specFlatBraceCount r

theorem countFlatBraceAux_true (r : List Char) :
    countFlatBraceAux true r =
      (if nextBraceCloses r then 1 else 0) + countFlatBraceAux false r := by
  induction r with
  | nil => rfl
  | cons c t ih =>
    by_cases hc : c = cbr
    · subst hc
      simp [countFlatBraceAux, nextBraceCloses, cbr, obr]
    · by_cases ho : c = obr
      · subst ho
        have hne : ¬ obr = cbr := by decide
        simp [countFlatBraceAux, nextBraceCloses, hne, ih]
      · simp [countFlatBraceAux, nextBraceCloses, hc, ho, ih]

theorem countFlatBrace_eq_spec (s : List Char) :
    countFlatBrace s = specFlatBraceCount s := by
  unfold countFlatBrace
  induction s with
  | nil => rfl
  | cons c t ih =>
    by_cases ho : c = obr
    · subst ho
      have hne : ¬ obr = cbr := by decide
      simp [countFlatBraceAux, specFlatBraceCount, hne, countFlatBraceAux_true, ih]
    · by_cases hc : c = cbr
      · subst hc
        simp [countFlatBraceAux, specFlatBraceCount, ho, ih]
      · simp [countFlatBraceAux, specFlatBraceCount, ho, hc, ih]

/-- Claim C6: `detect_log_format` returns JSON exactly when the text contains
strictly more than two non-nested brace-delimited substrings (counted as the
specification words it, via `specFlatBraceCount`), returns RAW otherwise, and
those are the only two possible results. -/
theorem classify_json_iff_more_than_two_flat_braces (text : List Char) :
    (detect_log_format text = LogFormat.JSON ↔ 2 < specFlatBraceCount text) ∧
    (detect_log_format text = LogFormat.JSON ∨ detect_log_format text = LogFormat.RAW) := by
  constructor
  · unfold detect_log_format
    rw [countFlatBrace_eq_spec]
    by_cases h : 2 < specFlatBraceCount text
    · simp [h]
    · simp [h]
  · unfold detect_log_format
    by_cases h : 2 < countFlatBrace text
    · exact Or.inl (by simp [h])
    · exact Or.inr (by simp [h])

/-! ### Raw-log cleaner (`vibelog_ui.py`, `clean_raw_logs`, lines 89-119) -/

/-- ASCII whitespace as stripped by Python `str.strip()` / split by
`str.split()`. -/
def pyIsSpace (c : Char) : Bool :=
  c == ' ' || c == '\t' || c == '\n' || c == '\r' || c == '\x0b' || c == '\x0c'

/-- Python `str.strip()` on character lists (ASCII whitespace). -/
def pyStrip (l : List Char) : List Char :=
  ((l.dropWhile pyIsSpace).reverse.dropWhile pyIsSpace).reverse

/-- ASCII lowering, modelling `re.IGNORECASE` matching of the ASCII-only
patterns. -/
def lowerList (l : List Char) : List Char := l.map Char.toLower

/-- Boolean substring test on character lists. -/
def listContains (pat s : List Char) : Bool := decide (pat <:+: s)

/-- The remainder of `s` after the first occurrence of `pat`, if any. -/
def afterFirstSub (pat : List Char) : List Char → Option (List Char)
  | [] => if pat.isEmpty then some [] else none
  | c :: r =>
    if pat.isPrefixOf (c :: r) then some ((c :: r).drop pat.length)
    else afterFirstSub pat r

/-- Pattern `^=+$` of line 96: the stripped line is nonempty and consists only
of equals signs. -/
def matchAllEquals (t : List Char) : Bool := !t.isEmpty && t.all (fun c => c == '=')

/-- Pattern `^-+$` of line 97. -/
def matchAllDashes (t : List Char) : Bool := !t.isEmpty && t.all (fun c => c == '-')

/-- Pattern `^.*Sample.*Events.*:?$` of line 98 (case-insensitive): the line
contains `sample` followed somewhere later by `events`. -/
def matchSampleEvents (t : List Char) : Bool :=
  match afterFirstSub "sample".toList (lowerList t) with
  | some r => listContains "events".toList r
  | none => false

/-- Pattern `^Sample.*logs:?$` of line 99 (case-insensitive): starts with
`sample` and ends with `logs` or `logs:`. -/
def matchSampleLogs (t : List Char) : Bool :=
  let u := lowerList t
  "sample".toList.isPrefixOf u &&
    ("logs".toList.isSuffixOf u || "logs:".toList.isSuffixOf u)

/-- Pattern `^Traffic logs:?$` of line 100 (case-insensitive). -/
def matchTrafficLogs (t : List Char) : Bool :=
  lowerList t == "traffic logs".toList || lowerList t == "traffic logs:".toList

/-- Pattern `^Threat logs:?$` of line 101 (case-insensitive). -/
def matchThreatLogs (t : List Char) : Bool :=
  lowerList t == "threat logs".toList || lowerList t == "threat logs:".toList

/-- Pattern `^Traffic log:?$` of line 102 (case-insensitive). -/
def matchTrafficLog (t : List Char) : Bool :=
  lowerList t == "traffic log".toList || lowerList t == "traffic log:".toList

/-- Pattern `^Threat log:?$` of line 103 (case-insensitive). -/
def matchThreatLog (t : List Char) : Bool :=
  lowerList t == "threat log".toList || lowerList t == "threat log:".toList

/-- Pattern `^Event \d+:?$` of line 104 (case-insensitive; digits modelled as
ASCII digits). -/
def matchEventMarker (t : List Char) : Bool :=
  let u := lowerList t
  "event ".toList.isPrefixOf u &&
    ((!(u.drop 6).isEmpty && (u.drop 6).all Char.isDigit) ||
      ((u.drop 6).getLast? == some ':' &&
        (!((u.drop 6).dropLast).isEmpty && ((u.drop 6).dropLast).all Char.isDigit)))

/-- Pattern `^\s*$` of line 105: the stripped line is empty. -/
def matchBlank (t : List Char) : Bool := t.isEmpty

/-- The `skip_patterns` list of lines 95-106, in source order. -/
def skipMatchers : List (List Char → Bool) :=
  [matchAllEquals, matchAllDashes, matchSampleEvents, matchSampleLogs,
   matchTrafficLogs, matchThreatLogs, matchTrafficLog, matchThreatLog,
   matchEventMarker, matchBlank]

/-- Lines 108-114: a line is skipped when any pattern matches its stripped
form. -/
def shouldSkipLine (line : List Char) : Bool :=
  skipMatchers.any (fun m => m (pyStrip line))

/-- The accumulation loop of lines 108-117: keep a line when no pattern
matches and the stripped line is nonempty. -/
def cleanRawLoop : List (List Char) → List (List Char)
  | [] => []
  | l :: r =>
    if shouldSkipLine l = false ∧ pyStrip l ≠ [] then l :: cleanRawLoop r
    else cleanRawLoop r

/-- `clean_raw_logs` (lines 89-119): split on newlines, drop decorative lines,
join the survivors with newlines.  (The unused `product_name` parameter is
omitted.) -/
def clean_raw_logs (output : List Char) : List Char :=
  List.intercalate ['\n'] (cleanRawLoop (output.splitOn '\n'))

/-- Spec-side skip predicate, grouped as the claim words it: separator lines
of only `=` or only `-`, banner/caption header lines, event-marker lines, and
blank lines. -/
def isSeparatorLine (t : List Char) : Bool := matchAllEquals t || matchAllDashes t

/-- Banner/caption header lines: the sample-events banner, the sample-logs
banner and the fixed captions. -/
def isBannerLine (t : List Char) : Bool :=
  matchSampleEvents t || matchSampleLogs t || matchTrafficLogs t || matchThreatLogs t ||
  matchTrafficLog t || matchThreatLog t

/-- The spec-side keep predicate: a line is kept unless its stripped form is a
separator, banner, event marker, or blank. -/
def specRawKeep (line : List Char) : Bool :=
  !(isSeparatorLine (pyStrip line) || isBannerLine (pyStrip line) ||
    matchEventMarker (pyStrip line) || matchBlank (pyStrip line))

theorem shouldSkipLine_eq (l : List Char) :
    shouldSkipLine l = !(specRawKeep l) := by
  rw [Bool.eq_iff_iff]
  simp only [shouldSkipLine, skipMatchers, specRawKeep, isSeparatorLine, isBannerLine,
    List.any_cons, List.any_nil, Bool.or_eq_true, Bool.not_not, or_false]
  tauto

theorem cleanRawLoop_eq_filter : ∀ ls : List (List Char),
    cleanRawLoop ls = ls.filter specRawKeep := by
  intro ls
  induction ls with
  | nil => rfl
  | cons l r ih =>
    by_cases h : specRawKeep l = true
    · have hs : shouldSkipLine l = false := by
        rw [shouldSkipLine_eq, h]
        rfl
      have hstrip : pyStrip l ≠ [] := by
        intro hc
        have hb : matchBlank (pyStrip l) = true := by
          rw [matchBlank, hc]
          rfl
        rw [specRawKeep] at h
        simp [hb] at h
      simp [cleanRawLoop, hs, hstrip, List.filter_cons, h, ih]
    · have hs : shouldSkipLine l = true := by
        rw [shouldSkipLine_eq]
        simp only [Bool.not_eq_true] at h
        rw [h]
        rfl
      have hcond : ¬ (shouldSkipLine l = false ∧ pyStrip l ≠ []) := by
        intro hc
        rw [hs] at hc
        exact absurd hc.1 (by simp)
      rw [cleanRawLoop, if_neg hcond, List.filter_cons]
      simp only [Bool.not_eq_true] at h
      simp [h, ih]

/-- Claim C8: `clean_raw_logs` keeps exactly the lines whose stripped form is
neither a separator line of only `=` or only `-`, nor a banner/caption header,
nor an event marker, nor blank; kept lines are preserved verbatim and in order
(the filter is a sublist of the split lines).  The specification's worked
scenario also holds: `"=== Sample Events ===\nEvent 1:\nfoo=bar\n\nEvent
2:\nbaz=qux"` cleans to `"foo=bar\nbaz=qux"`. -/
theorem clean_raw_drops_exactly_skip_lines (text : List Char) :
    clean_raw_logs text =
      List.intercalate ['\n'] ((text.splitOn '\n').filter specRawKeep) ∧
    (text.splitOn '\n').filter specRawKeep <+ text.splitOn '\n' ∧
    clean_raw_logs "=== Sample Events ===\nEvent 1:\nfoo=bar\n\nEvent 2:\nbaz=qux".toList =
      "foo=bar\nbaz=qux".toList := by
  refine ⟨?_, List.filter_sublist _, by decide⟩
  unfold clean_raw_logs
  rw [cleanRawLoop_eq_filter]

/-! ### Syslog streaming delivery (`generate_logs`, lines 428-494) -/

theorem prefix_append_left_of_length_le {α : Type} :
    ∀ {x a b : List α}, x <+: a ++ b → x.length ≤ a.length → x <+: a := by
  intro x
  induction x with
  | nil => intro a b _ _; exact List.nil_prefix
  | cons x0 xs ih =>
    intro a b h hl
    cases a with
    | nil => simp at hl
    | cons a0 as =>
      rw [List.cons_append] at h
      obtain ⟨he, ht⟩ := ( List.cons_prefix_cons).mp h
      simp only [List.length_cons, Nat.add_le_add_iff_right] at hl
      exact ( List.cons_prefix_cons).mpr ⟨he, ih ht hl⟩

/-- External effects of one syslog generation run: the TCP connect outcome and
message, the child's stdout lines, the per-line send outcomes and failure
message, and the child's stderr text. -/
structure SyslogEnv where
  connectOk : Bool
  connectErr : List Char
  childLines : List (List Char)
  sendResults : List Bool
  sendErr : List Char
  stderrText : List Char

/-- The transmission loop of lines 475-488: each stdout line is stripped and
sent; on success a `LOG:` line is yielded, on the first failure an `ERROR:`
line is yielded, the child is terminated and the loop breaks.  Returns the
yielded lines and whether `process.terminate()` was called. -/
def syslogSendLoop (sendErr : List Char) :
    List (List Char) → List Bool → List (List Char) × Bool
  | [], _ => ([], false)
  | line :: rest, results =>
    if results.headD true then
      let r := syslogSendLoop sendErr rest results.tail
      (("LOG: ".toList ++ pyStrip line ++ ['\n']) :: r.1, r.2)
    else
      (["ERROR: Failed to send log to syslog server. Details: ".toList ++ sendErr ++ ['\n']],
        true)

/-- The connect-failure line of line 459. -/
def tcpConnectErrLine (ip : List Char) (port : Nat) (errMsg : List Char) : List Char :=
  "ERROR: Could not connect to TCP syslog server at ".toList ++
    (ip ++ (":".toList ++ ((Nat.repr port).toList ++
      (". Details: ".toList ++ (errMsg ++ "\n".toList)))))

/-- Observable result of one run of the syslog branch of
`generate_and_stream`: the yielded lines, whether the generator child was
spawned / terminated, and whether a socket was opened / closed by the
`finally` block. -/
structure SyslogRunResult where
  out : List (List Char)
  procStarted : Bool
  procTerminated : Bool
  sockOpened : Bool
  sockClosed : Bool

/-- The syslog branch of `generate_and_stream` (lines 428-494 plus the
`finally` block of lines 593-596), for already-resolved destination details:
validation, socket opening, the TCP connect that may fail, the send loop, the
stderr block, and the guaranteed final `INFO` line and socket close. -/
def syslogStreamRun (ip : List Char) (port : Nat) (protocol : String)
    (env : SyslogEnv) : SyslogRunResult :=
  if ip = [] ∨ port = 0 ∨ (protocol ≠ "UDP" ∧ protocol ≠ "TCP") then
    { out := ["ERROR: Missing or invalid syslog destination details.\n".toList,
              "INFO: Log generation complete.\n".toList],
      procStarted := false, procTerminated := false,
      sockOpened := false, sockClosed := false }
  else if protocol = "TCP" ∧ env.connectOk = false then
    { out := [tcpConnectErrLine ip port env.connectErr,
              "INFO: Log generation complete.\n".toList],
      procStarted := false, procTerminated := false,
      sockOpened := true, sockClosed := true }
  else
    let r := syslogSendLoop env.sendErr env.childLines env.sendResults
    { out := ["INFO: Starting log generation...\n".toList] ++ r.1 ++
        (if env.stderrText ≠ [] then
          ["ERROR: Script execution produced errors:\n".toList ++ env.stderrText ++ ['\n']]
        else []) ++
        ["INFO: Log generation complete.\n".toList],
      procStarted := true, procTerminated := r.2,
      sockOpened := true, sockClosed := true }

/-- Claim C9: when the initial TCP connect fails, the run aborts before any
line is sent: an `ERROR:` status line is yielded, no `LOG:` line is ever
yielded, the generator child is never started (so none is left running), and
the socket is closed on that exit path. -/
theorem tcp_connect_failure_aborts (ip : List Char) (port : Nat) (env : SyslogEnv)
    (hip : ip ≠ []) (hport : port ≠ 0) (hconn : env.connectOk = false) :
    (∃ l ∈ (syslogStreamRun ip port "TCP" env).out, "ERROR:".toList <+: l) ∧
    (∀ l ∈ (syslogStreamRun ip port "TCP" env).out, ¬ ("LOG:".toList <+: l)) ∧
    (syslogStreamRun ip port "TCP" env).procStarted = false ∧
    (syslogStreamRun ip port "TCP" env).sockClosed = true := by
  have hval : ¬ (ip = [] ∨ port = 0 ∨ (("TCP" : String) ≠ "UDP" ∧ ("TCP" : String) ≠ "TCP")) := by
    push_neg
    exact ⟨hip, hport, fun _ => rfl⟩
  have hrun : syslogStreamRun ip port "TCP" env =
      { out := [tcpConnectErrLine ip port env.connectErr,
                "INFO: Log generation complete.\n".toList],
        procStarted := false, procTerminated := false,
        sockOpened := true, sockClosed := true } := by
    unfold syslogStreamRun
    rw [if_neg hval, if_pos ⟨rfl, hconn⟩]
  rw [hrun]
  refine ⟨⟨tcpConnectErrLine ip port env.connectErr, List.mem_cons_self _ _, ?_⟩, ?_, rfl, rfl⟩
  · unfold tcpConnectErrLine
    exact (by decide :
      "ERROR:".toList <+: "ERROR: Could not connect to TCP syslog server at ".toList).trans
      (List.prefix_append _ _)
  · intro l hl
    rcases List.mem_cons.mp hl with h1 | h2
    · subst h1
      intro hpre
      unfold tcpConnectErrLine at hpre
      have := prefix_append_left_of_length_le hpre (by decide)
      exact absurd this (by decide)
    · have h2' : l = "INFO: Log generation complete.\n".toList := by simpa using h2
      subst h2'
      decide

/-- The concrete environment of the C9 witness: the connect raises
`ConnectionRefusedError`, the generator would have produced two lines. -/
def refusedEnv : SyslogEnv :=
  { connectOk := false, connectErr := "[Errno 111] Connection refused".toList,
    childLines := ["evt one".toList, "evt two".toList],
    sendResults := [true, true], sendErr := [], stderrText := [] }

/-- Witness for C9 at ip `10.0.0.5`, port 514, with a refused TCP connect. -/
theorem tcp_connect_failure_aborts_witness :
    ("10.0.0.5".toList ≠ ([] : List Char) ∧ (514 : Nat) ≠ 0 ∧
      refusedEnv.connectOk = false) ∧
    (∃ l ∈ (syslogStreamRun "10.0.0.5".toList 514 "TCP" refusedEnv).out,
        "ERROR:".toList <+: l) ∧
    (∀ l ∈ (syslogStreamRun "10.0.0.5".toList 514 "TCP" refusedEnv).out,
        ¬ ("LOG:".toList <+: l)) ∧
    (syslogStreamRun "10.0.0.5".toList 514 "TCP" refusedEnv).procStarted = false ∧
    (syslogStreamRun "10.0.0.5".toList 514 "TCP" refusedEnv).sockClosed = true := by
  refine ⟨⟨by decide, by decide, by decide⟩, ?_⟩
  exact tcp_connect_failure_aborts "10.0.0.5".toList 514 refusedEnv
    (by decide) (by decide) (by decide)

/-! ### JSON-log normalizer (`vibelog_ui.py`, `clean_json_logs`, lines 121-139) -/

/-- True on every character other than the two braces. -/
def notBrace (c : Char) : Bool := !(c == obr || c == cbr)

/-- Fuel-indexed matcher for the tail of the nested-brace pattern of line 124
(everything after an opening brace): a run of non-braces, then either the
closing brace, or one one-level-nested group followed recursively by the rest
of the tail.  Returns the consumed tail (including the closing brace) and the
remainder; `none` when the pattern cannot match at this opening brace. -/
def tryNestedAux : Nat → List Char → Option (List Char × List Char)
  | 0, _ => none
  | fuel + 1, s =>
    match s.dropWhile notBrace with
    | [] => none
    | c :: rest =>
      if c = cbr then some (s.takeWhile notBrace ++ [c], rest)
      else
        match rest.dropWhile notBrace with
        | [] => none
        | c2 :: rest2 =>
          if c2 = cbr then
            match tryNestedAux fuel rest2 with
            | some (m, rr) =>
              some (s.takeWhile notBrace ++ c :: (rest.takeWhile notBrace ++ c2 :: m), rr)
            | none => none
          else none

/-- Matcher for the tail of the nested-brace pattern, with sufficient fuel. -/
def tryNested (s : List Char) : Option (List Char × List Char) :=
  tryNestedAux (s.length + 1) s

/-- Fuel-indexed `re.findall` for the nested-brace pattern: at each opening
brace attempt a match; on success emit it and continue after it, on failure
continue at the next character. -/
def findAllNestedAux : Nat → List Char → List (List Char)
  | 0, _ => []
  | fuel + 1, s =>
    match s with
    | [] => []
    | c :: r =>
      if c = obr then
        match tryNested r with
        | some (m, rest) => (c :: m) :: findAllNestedAux fuel rest
        | none => findAllNestedAux fuel r
      else findAllNestedAux fuel r

/-- All matches of the nested-brace pattern of line 124, left to right,
non-overlapping. -/
def findAllNested (s : List Char) : List (List Char) :=
  findAllNestedAux s.length s

/-- Python `str.split()` with no separator: the maximal whitespace-free runs. -/
def pyWords (s : List Char) : List (List Char) :=
  (List.splitOnP pyIsSpace s).filter (fun w => !w.isEmpty)

/-- Line 136, `' '.join(json_str.split())`: collapse internal whitespace runs
to single spaces and strip the ends. -/
def collapseWS (s : List Char) : List Char := List.intercalate [' '] (pyWords s)

/-- JSON values as handled by the model of Python's `json` module.  Numbers
are restricted to integers: floating-point literals are treated as parse
failures, since floats are outside the scope of this embedding. -/
inductive Json where
  | null
  | bool (b : Bool)
  | num (n : Int)
  | str (s : List Char)
  | arr (elems : List Json)
  | obj (members : List (List Char × Json))

/-- The four whitespace characters JSON allows between tokens. -/
def jsonWsChar (c : Char) : Bool := c == ' ' || c == '\t' || c == '\n' || c == '\r'

/-- Skip inter-token JSON whitespace. -/
def skipJsonWs (s : List Char) : List Char := s.dropWhile jsonWsChar

/-- Value of one hexadecimal digit. -/
def hexVal (c : Char) : Option Nat :=
  if c.isDigit then some (c.toNat - 48)
  else if 'a' ≤ c ∧ c ≤ 'f' then some (c.toNat - 87)
  else if 'A' ≤ c ∧ c ≤ 'F' then some (c.toNat - 55)
  else none

/-- Model of Python's strict JSON string scanner, after the opening quote:
returns the decoded content and the remainder after the closing quote.  Raw
control characters (below 0x20) are rejected, as in `json.loads`'s default
strict mode; `\uXXXX` escapes are decoded (surrogate halves are treated as
failures, a restriction of the model). -/
def parseJsonString : List Char → Option (List Char × List Char)
  | [] => none
  | c :: r =>
    if c = '"' then some ([], r)
    else if c = '\\' then
      match r with
      | [] => none
      | e :: r2 =>
        if e = '"' then (parseJsonString r2).map (fun p => ('"' :: p.1, p.2))
        else if e = '\\' then (parseJsonString r2).map (fun p => ('\\' :: p.1, p.2))
        else if e = '/' then (parseJsonString r2).map (fun p => ('/' :: p.1, p.2))
        else if e = 'b' then (parseJsonString r2).map (fun p => ('\x08' :: p.1, p.2))
        else if e = 'f' then (parseJsonString r2).map (fun p => ('\x0c' :: p.1, p.2))
        else if e = 'n' then (parseJsonString r2).map (fun p => ('\n' :: p.1, p.2))
        else if e = 'r' then (parseJsonString r2).map (fun p => ('\r' :: p.1, p.2))
        else if e = 't' then (parseJsonString r2).map (fun p => ('\t' :: p.1, p.2))
        else if e = 'u' then
          match r2 with
          | h1 :: h2 :: h3 :: h4 :: r3 =>
            match hexVal h1, hexVal h2, hexVal h3, hexVal h4 with
            | some a, some b, some cc, some d =>
              let code := a * 4096 + b * 256 + cc * 16 + d
              if code < 0xd800 ∨ 0xe000 ≤ code then
                (parseJsonString r3).map (fun p => (Char.ofNat code :: p.1, p.2))
              else none
            | _, _, _, _ => none
          | _ => none
        else none
    else if c.toNat < 0x20 then none
    else (parseJsonString r).map (fun p => (c :: p.1, p.2))

/-- Digits to a natural number. -/
def digitsToNat (ds : List Char) : Nat :=
  ds.foldl (fun a c => a * 10 + (c.toNat - 48)) 0

/-- The integral part of a JSON number: nonempty digits without a redundant
leading zero, not followed by a fraction or exponent (floats are outside the
model and fail). -/
def parseNatPart (s : List Char) : Option (Nat × List Char) :=
  let ds := s.takeWhile Char.isDigit
  let rest := s.dropWhile Char.isDigit
  if ds.isEmpty then none
  else if 1 < ds.length ∧ ds.headD '0' = '0' then none
  else if rest.headD ' ' = '.' ∨ rest.headD ' ' = 'e' ∨ rest.headD ' ' = 'E' then none
  else some (digitsToNat ds, rest)

/-- A JSON integer literal with optional minus sign. -/
def parseJsonNumber (s : List Char) : Option (Int × List Char) :=
  match s with
  | '-' :: r => (parseNatPart r).map (fun p => (-(p.1 : Int), p.2))
  | _ => (parseNatPart s).map (fun p => ((p.1 : Int), p.2))

/-- Python-dict member insertion: an existing key keeps its position and takes
the new value, a new key is appended. -/
def insertMember : List (List Char × Json) → List Char → Json → List (List Char × Json)
  | [], k, v => [(k, v)]
  | (k0, v0) :: r, k, v =>
    if k0 = k then (k0, v) :: r else (k0, v0) :: insertMember r k v

mutual

/-- Model of Python `json.loads`'s value scanner at a non-whitespace
position. -/
def parseJsonValue : Nat → List Char → Option (Json × List Char)
  | 0, _ => none
  | fuel + 1, s =>
    match s with
    | [] => none
    | c :: r =>
      if c = '"' then (parseJsonString r).map (fun p => (Json.str p.1, p.2))
      else if c = obr then parseJsonObj fuel r
      else if c = '[' then parseJsonArr fuel r
      else if c = 't' then
        match r with
        | 'r' :: 'u' :: 'e' :: r2 => some (Json.bool true, r2)
        | _ => none
      else if c = 'f' then
        match r with
        | 'a' :: 'l' :: 's' :: 'e' :: r2 => some (Json.bool false, r2)
        | _ => none
      else if c = 'n' then
        match r with
        | 'u' :: 'l' :: 'l' :: r2 => some (Json.null, r2)
        | _ => none
      else if c = '-' ∨ c.isDigit then
        (parseJsonNumber (c :: r)).map (fun p => (Json.num p.1, p.2))
      else none

/-- An object body, after the opening brace. -/
def parseJsonObj : Nat → List Char → Option (Json × List Char)
  | 0, _ => none
  | fuel + 1, s =>
    match skipJsonWs s with
    | [] => none
    | c :: r =>
      if c = cbr then some (Json.obj [], r)
      else parseJsonMembers fuel [] (c :: r)

/-- One or more `"key": value` members separated by commas, ending at the
closing brace. -/
def parseJsonMembers : Nat → List (List Char × Json) → List Char →
    Option (Json × List Char)
  | 0, _, _ => none
  | fuel + 1, acc, s =>
    match s with
    | '"' :: r =>
      match parseJsonString r with
      | none => none
      | some (k, r2) =>
        match skipJsonWs r2 with
        | ':' :: r3 =>
          match parseJsonValue fuel (skipJsonWs r3) with
          | none => none
          | some (v, r4) =>
            match skipJsonWs r4 with
            | [] => none
            | c2 :: r5 =>
              if c2 = ',' then parseJsonMembers fuel (insertMember acc k v) (skipJsonWs r5)
              else if c2 = cbr then some (Json.obj (insertMember acc k v), r5)
              else none
        | _ => none
    | _ => none

/-- An array body, after the opening bracket. -/
def parseJsonArr : Nat → List Char → Option (Json × List Char)
  | 0, _ => none
  | fuel + 1, s =>
    match skipJsonWs s with
    | [] => none
    | c :: r =>
      if c = ']' then some (Json.arr [], r)
      else parseJsonElems fuel [] (c :: r)

/-- One or more array elements separated by commas, ending at the closing
bracket. -/
def parseJsonElems : Nat → List Json → List Char → Option (Json × List Char)
  | 0, _, _ => none
  | fuel + 1, acc, s =>
    match parseJsonValue fuel s with
    | none => none
    | some (v, r) =>
      match skipJsonWs r with
      | [] => none
      | c2 :: r2 =>
        if c2 = ',' then parseJsonElems fuel (acc ++ [v]) (skipJsonWs r2)
        else if c2 = ']' then some (Json.arr (acc ++ [v]), r2)
        else none

end

/-- Model of Python `json.loads` on a whole document (integer numbers only;
see `Json`). -/
def jsonLoads (s : List Char) : Option Json :=
  match parseJsonValue (s.length + 1) (skipJsonWs s) with
  | some (v, rest) => if skipJsonWs rest = [] then some v else none
  | none => none

/-- One lowercase hexadecimal digit. -/
def hexDigit (n : Nat) : Char :=
  if n < 10 then Char.ofNat (48 + n) else Char.ofNat (87 + n)

/-- Four lowercase hexadecimal digits, as in `\uXXXX` escapes. -/
def hexDigits4 (n : Nat) : List Char :=
  [hexDigit (n / 4096 % 16), hexDigit (n / 256 % 16), hexDigit (n / 16 % 16), hexDigit (n % 16)]

/-- `json.dumps` escaping of one character with the default `ensure_ascii`
(code points beyond the basic multilingual plane are outside the model). -/
def escapeJsonChar (c : Char) : List Char :=
  if c = '"' then ['\\', '"']
  else if c = '\\' then ['\\', '\\']
  else if c = '\n' then ['\\', 'n']
  else if c = '\t' then ['\\', 't']
  else if c = '\r' then ['\\', 'r']
  else if c = '\x08' then ['\\', 'b']
  else if c = '\x0c' then ['\\', 'f']
  else if c.toNat < 0x20 ∨ 0x7f ≤ c.toNat then '\\' :: 'u' :: hexDigits4 c.toNat
  else [c]

/-- A JSON string literal as `json.dumps` renders it. -/
def serializeStringLit (s : List Char) : List Char :=
  '"' :: s.flatMap escapeJsonChar ++ ['"']

mutual

/-- Model of `json.dumps(value, separators=(',', ':'))` as called at
line 133: compact rendering with no spaces, keys in the parse's order. -/
def serializeJson : Json → List Char
  | Json.null => "null".toList
  | Json.bool true => "true".toList
  | Json.bool false => "false".toList
  | Json.num n => n.repr.toList
  | Json.str s => serializeStringLit s
  | Json.arr xs => '[' :: (List.intercalate [','] (serializeJsonList xs) ++ [']'])
  | Json.obj ms => obr :: (List.intercalate [','] (serializeJsonMembers ms) ++ [cbr])

/-- Rendered array elements. -/
def serializeJsonList : List Json → List (List Char)
  | [] => []
  | x :: xs => serializeJson x :: serializeJsonList xs

/-- Rendered object members. -/
def serializeJsonMembers : List (List Char × Json) → List (List Char)
  | [] => []
  | (k, v) :: r => (serializeStringLit k ++ ':' :: serializeJson v) :: serializeJsonMembers r

end

/-- `clean_json_logs` (lines 121-139): extract every nested-brace match,
re-serialize the ones that parse as JSON compactly, collapse the whitespace of
the ones that do not, and join the results with newlines. -/
def clean_json_logs (output : List Char) : List Char :=
  List.intercalate ['\n'] ((findAllNested output).map (fun m =>
    match jsonLoads m with
    | some v => serializeJson v
    | none => collapseWS m))

/-- Claim C7, counterexample.  `normalizeJson` is not idempotent on every
input: for the text consisting of one brace-delimited object whose string
value contains a raw newline, the first pass fails to parse it (strict JSON
rejects raw control characters) and only collapses the whitespace, while the
second pass parses the collapsed text successfully and re-serializes it
without the space after the colon.  So applying the function twice gives a
different result than applying it once. -/
theorem normalizeJson_not_idempotent :
    clean_json_logs (clean_json_logs "\x7b\"a\": \"x\ny\"\x7d".toList) ≠
      clean_json_logs "\x7b\"a\": \"x\ny\"\x7d".toList ∧
    clean_json_logs "\x7b\"a\": \"x\ny\"\x7d".toList = "\x7b\"a\": \"x y\"\x7d".toList ∧
    clean_json_logs (clean_json_logs "\x7b\"a\": \"x\ny\"\x7d".toList) =
      "\x7b\"a\":\"x y\"\x7d".toList := by
  refine ⟨by decide, by decide, by decide⟩

/-! ### Structure of the nested-brace matches -/

theorem takeWhile_append_sat {α : Type} (p : α → Bool) (a : List α) (c : α) (z : List α)
    (ha : ∀ x ∈ a, p x = true) (hc : p c = false) :
    (a ++ c :: z).takeWhile p = a ∧ (a ++ c :: z).dropWhile p = c :: z := by
  induction a with
  | nil => simp [List.takeWhile_cons, List.dropWhile_cons, hc]
  | cons a0 a' ih =>
    have h0 : p a0 = true := ha a0 (List.mem_cons_self _ _)
    have ihh := ih (fun x hx => ha x (List.mem_cons_of_mem _ hx))
    simp [List.takeWhile_cons, List.dropWhile_cons, h0, ihh.1, ihh.2]

/-- The shape of a tail consumed by `tryNested`: either a run of non-braces
closed by the closing brace, or a run of non-braces followed by one nested
`obr … cbr` group with non-brace interior, followed by more of the same. -/
inductive NestedTail : List Char → Prop where
  | flat (a : List Char) (ha : ∀ c ∈ a, notBrace c = true) : NestedTail (a ++ [cbr])
  | pair (a b : List Char) (t : List Char)
      (ha : ∀ c ∈ a, notBrace c = true) (hb : ∀ c ∈ b, notBrace c = true)
      (ht : NestedTail t) : NestedTail (a ++ obr :: (b ++ cbr :: t))

theorem NestedTail.ne_nil {t : List Char} (h : NestedTail t) : t ≠ [] := by
  induction h with
  | flat a ha => simp
  | pair a b t ha hb ht ih => simp

theorem NestedTail.length_pos {t : List Char} (h : NestedTail t) : 1 ≤ t.length := by
  have := h.ne_nil
  cases t with
  | nil => exact absurd rfl this
  | cons _ _ => simp

theorem tryNestedAux_sound : ∀ (fuel : Nat) (s m rest : List Char),
    tryNestedAux fuel s = some (m, rest) → s = m ++ rest ∧ NestedTail m := by
  intro fuel
  induction fuel with
  | zero => intro s m rest h; exact absurd h (by simp [tryNestedAux])
  | succ fuel ih =>
    intro s m rest h
    rw [tryNestedAux] at h
    split at h
    · exact absurd h (by simp)
    · rename_i c r1 hdw
      have hsplit : s = s.takeWhile notBrace ++ (c :: r1) := by
        conv_lhs => rw [← List.takeWhile_append_dropWhile (p := notBrace) (l := s)]
        rw [hdw]
      have hcbrace : notBrace c = false := by
        have := List.head?_dropWhile_not notBrace s
        rw [hdw] at this
        simpa using this
      split at h
      · rename_i hc
        have hinj := Option.some.inj h
        have hm : s.takeWhile notBrace ++ [c] = m := congrArg Prod.fst hinj
        have hrest : r1 = rest := congrArg Prod.snd hinj
        subst hc
        refine ⟨?_, ?_⟩
        · rw [← hm, ← hrest]
          conv_lhs => rw [hsplit]
          simp
        · rw [← hm]
          exact NestedTail.flat _ (fun x hx => List.mem_takeWhile_imp hx)
      · rename_i hc
        split at h
        · exact absurd h (by simp)
        · rename_i c2 r2 hdw2
          have hsplit2 : r1 = r1.takeWhile notBrace ++ (c2 :: r2) := by
            conv_lhs => rw [← List.takeWhile_append_dropWhile (p := notBrace) (l := r1)]
            rw [hdw2]
          split at h
          · rename_i hc2
            cases htry : tryNestedAux fuel r2 with
            | none => rw [htry] at h; exact absurd h (by simp)
            | some pr =>
              obtain ⟨m1, rr⟩ := pr
              rw [htry] at h
              obtain ⟨hr2, hnt⟩ := ih r2 m1 rr htry
              have hinj : (s.takeWhile notBrace ++ c :: (r1.takeWhile notBrace ++ c2 :: m1),
                  rr) = (m, rest) := Option.some.inj h
              have hm : s.takeWhile notBrace ++ c :: (r1.takeWhile notBrace ++ c2 :: m1) = m :=
                congrArg Prod.fst hinj
              have hrest : rr = rest := congrArg Prod.snd hinj
              have hcobr : c = obr := by
                by_contra hno
                have hnb : notBrace c = true := by
                  unfold notBrace
                  simp [beq_iff_eq, hno, hc]
                rw [hnb] at hcbrace
                exact absurd hcbrace (by simp)
              refine ⟨?_, ?_⟩
              · rw [← hm, ← hrest]
                conv_lhs => rw [hsplit]
                conv_lhs => rw [hsplit2]
                conv_lhs => rw [hr2]
                simp
              · rw [← hm, hcobr, hc2]
                exact NestedTail.pair _ _ _ (fun x hx => List.mem_takeWhile_imp hx)
                  (fun x hx => List.mem_takeWhile_imp hx) hnt
          · exact absurd h (by simp)

theorem tryNestedAux_complete {t : List Char} (h : NestedTail t) :
    ∀ (rest : List Char) (fuel : Nat), t.length < fuel →
      tryNestedAux fuel (t ++ rest) = some (t, rest) := by
  induction h with
  | flat a ha =>
    intro rest fuel hfuel
    cases fuel with
    | zero => simp at hfuel
    | succ f =>
      rw [tryNestedAux]
      have hassoc : (a ++ [cbr]) ++ rest = a ++ (cbr :: rest) := by simp
      obtain ⟨htw, hdw⟩ := takeWhile_append_sat notBrace a cbr rest ha (by decide)
      rw [hassoc]
      split
      · rename_i heq
        rw [hdw] at heq
        exact absurd heq (by simp)
      · rename_i c r heq
        rw [hdw] at heq
        injection heq with hc hr
        subst hc
        rw [if_pos rfl, htw, hr]
  | pair a b t1 ha hb ht ih =>
    intro rest fuel hfuel
    cases fuel with
    | zero => simp at hfuel
    | succ f =>
      rw [tryNestedAux]
      have hassoc : (a ++ obr :: (b ++ cbr :: t1)) ++ rest =
          a ++ (obr :: (b ++ cbr :: (t1 ++ rest))) := by simp
      obtain ⟨htw, hdw⟩ := takeWhile_append_sat notBrace a obr
        (b ++ cbr :: (t1 ++ rest)) ha (by decide)
      rw [hassoc]
      split
      · rename_i heq
        rw [hdw] at heq
        exact absurd heq (by simp)
      · rename_i c r heq
        rw [hdw] at heq
        injection heq with hc hr
        subst hc
        rw [if_neg (by decide)]
        obtain ⟨htw2, hdw2⟩ := takeWhile_append_sat notBrace b cbr (t1 ++ rest) hb (by decide)
        rw [← hr]
        split
        · rename_i heq2
          rw [hdw2] at heq2
          exact absurd heq2 (by simp)
        · rename_i c2 r2 heq2
          rw [hdw2] at heq2
          injection heq2 with hc2 hr2
          subst hc2
          rw [if_pos rfl]
          have hlt : t1.length < f := by
            simp only [List.length_append, List.length_cons] at hfuel
            omega
          rw [← hr2, ih rest f hlt, htw, htw2]

theorem intercalate_nl_nil : List.intercalate ['\n'] ([] : List (List Char)) = [] := rfl

theorem intercalate_nl_single (m : List Char) : List.intercalate ['\n'] [m] = m := by
  simp [List.intercalate]

theorem intercalate_nl_cons2 (m m2 : List Char) (ms : List (List Char)) :
    List.intercalate ['\n'] (m :: m2 :: ms) =
      m ++ '\n' :: List.intercalate ['\n'] (m2 :: ms) := by
  simp [List.intercalate]

theorem findAllNestedAux_nil (fuel : Nat) : findAllNestedAux fuel [] = [] := by
  cases fuel <;> rfl

theorem findAllNestedAux_cons (fuel : Nat) (c : Char) (r : List Char) :
    findAllNestedAux (fuel + 1) (c :: r) =
      if c = obr then
        match tryNested r with
        | some (m, rest) => (c :: m) :: findAllNestedAux fuel rest
        | none => findAllNestedAux fuel r
      else findAllNestedAux fuel r := rfl

theorem findAllNestedAux_shape : ∀ (fuel : Nat) (s m : List Char),
    m ∈ findAllNestedAux fuel s → ∃ t, m = obr :: t ∧ NestedTail t := by
  intro fuel
  induction fuel with
  | zero => intro s m h; exact absurd h (by simp [findAllNestedAux])
  | succ fuel ih =>
    intro s m h
    cases s with
    | nil => rw [findAllNestedAux_nil] at h; exact absurd h (by simp)
    | cons c r =>
      rw [findAllNestedAux_cons] at h
      by_cases hc : c = obr
      · rw [if_pos hc] at h
        cases htry : tryNested r with
        | none =>
          rw [htry] at h
          exact ih r m h
        | some pr =>
          obtain ⟨m0, rest⟩ := pr
          rw [htry] at h
          rcases List.mem_cons.mp h with h1 | h2
          · obtain ⟨_, hnt⟩ := tryNestedAux_sound (r.length + 1) r m0 rest htry
            exact ⟨m0, by rw [h1, hc], hnt⟩
          · exact ih rest m h2
      · rw [if_neg hc] at h
        exact ih r m h

theorem findAllNestedAux_intercalate : ∀ (ms : List (List Char)) (fuel : Nat),
    (∀ m ∈ ms, ∃ t, m = obr :: t ∧ NestedTail t) →
    (List.intercalate ['\n'] ms).length ≤ fuel →
    findAllNestedAux fuel (List.intercalate ['\n'] ms) = ms := by
  intro ms
  induction ms with
  | nil =>
    intro fuel _ _
    rw [intercalate_nl_nil, findAllNestedAux_nil]
  | cons m ms' ih =>
    intro fuel hshape hlen
    obtain ⟨t, hmt, hnt⟩ := hshape m (List.mem_cons_self _ _)
    cases ms' with
    | nil =>
      rw [intercalate_nl_single] at hlen ⊢
      subst hmt
      have h1 : 1 ≤ t.length := hnt.length_pos
      cases fuel with
      | zero => simp only [List.length_cons] at hlen; omega
      | succ f =>
        rw [findAllNestedAux_cons, if_pos rfl]
        have hcomp : tryNested t = some (t, []) := by
          have := tryNestedAux_complete hnt [] (t.length + 1) (by omega)
          simpa [tryNested] using this
        rw [hcomp]
        show (obr :: t) :: findAllNestedAux f [] = [obr :: t]
        rw [findAllNestedAux_nil]
    | cons m2 ms'' =>
      rw [intercalate_nl_cons2] at hlen ⊢
      subst hmt
      have h1 : 1 ≤ t.length := hnt.length_pos
      have hlen' : (List.intercalate ['\n'] (m2 :: ms'')).length + t.length + 2 ≤ fuel := by
        simp only [List.length_append, List.length_cons] at hlen
        omega
      cases fuel with
      | zero => omega
      | succ f =>
        have hstep : (obr :: t) ++ '\n' :: List.intercalate ['\n'] (m2 :: ms'') =
            obr :: (t ++ '\n' :: List.intercalate ['\n'] (m2 :: ms'')) := by simp
        rw [hstep, findAllNestedAux_cons, if_pos rfl]
        have hcomp : tryNested (t ++ '\n' :: List.intercalate ['\n'] (m2 :: ms'')) =
            some (t, '\n' :: List.intercalate ['\n'] (m2 :: ms'')) := by
          have := tryNestedAux_complete hnt ('\n' :: List.intercalate ['\n'] (m2 :: ms''))
            ((t ++ '\n' :: List.intercalate ['\n'] (m2 :: ms'')).length + 1)
            (by simp only [List.length_append, List.length_cons]; omega)
          simpa [tryNested] using this
        rw [hcomp]
        show (obr :: t) ::
            findAllNestedAux f ('\n' :: List.intercalate ['\n'] (m2 :: ms'')) =
          (obr :: t) :: m2 :: ms''
        cases f with
        | zero => omega
        | succ f2 =>
          rw [findAllNestedAux_cons, if_neg (by decide)]
          congr 1
          exact ih f2 (fun x hx => hshape x (List.mem_cons_of_mem _ hx)) (by omega)

/-! ### Whitespace collapsing preserves the match structure -/

theorem splitOnP_chunks_no_sep (q : Char → Bool) :
    ∀ (l : List Char), ∀ w ∈ List.splitOnP q l, ∀ c ∈ w, q c = false := by
  intro l
  induction l with
  | nil =>
    intro w hw c hc
    rw [List.splitOnP_nil] at hw
    have : w = [] := by simpa using hw
    subst this
    cases hc
  | cons a l ih =>
    intro w hw c hc
    rw [List.splitOnP_cons] at hw
    by_cases ha : q a
    · rw [if_pos ha] at hw
      rcases List.mem_cons.mp hw with h1 | h2
      · subst h1; cases hc
      · exact ih w h2 c hc
    · rw [if_neg ha] at hw
      cases hsp : List.splitOnP q l with
      | nil => exact absurd hsp (List.splitOnP_ne_nil _ _)
      | cons h0 tl =>
        rw [hsp] at hw
        simp only [List.modifyHead] at hw
        rcases List.mem_cons.mp hw with h1 | h2
        · subst h1
          rcases List.mem_cons.mp hc with h3 | h4
          · subst h3; simpa using ha
          · exact ih h0 (hsp ▸ List.mem_cons_self _ _) c h4
        · exact ih w (hsp ▸ List.mem_cons_of_mem _ h2) c hc

theorem filter_eq_flatten_splitOnP (p q : Char → Bool)
    (hpq : ∀ c, q c = true → p c = false) :
    ∀ l : List Char,
      l.filter p = ((List.splitOnP q l).map (fun w => w.filter p)).flatten := by
  intro l
  induction l with
  | nil => simp [List.splitOnP_nil]
  | cons a l ih =>
    rw [List.splitOnP_cons]
    by_cases ha : q a
    · rw [if_pos ha]
      have hpa : p a = false := hpq a ha
      simp only [List.map_cons, List.flatten_cons, List.filter_nil, List.nil_append]
      rw [List.filter_cons, hpa]
      simpa using ih
    · rw [if_neg ha]
      cases hsp : List.splitOnP q l with
      | nil => exact absurd hsp (List.splitOnP_ne_nil _ _)
      | cons h0 tl =>
        rw [hsp] at ih
        simp only [List.modifyHead, List.map_cons, List.flatten_cons] at ih ⊢
        rw [List.filter_cons, List.filter_cons]
        by_cases hpa : p a
        · simp [hpa, ih]
        · simp [hpa, ih]

theorem flatten_map_filter_ne_nil (f : List Char → List Char) (hf : f [] = []) :
    ∀ L : List (List Char),
      ((L.filter (fun w => !w.isEmpty)).map f).flatten = (L.map f).flatten := by
  intro L
  induction L with
  | nil => rfl
  | cons w L ih =>
    by_cases hw : w.isEmpty
    · have hwn : w = [] := by cases w with | nil => rfl | cons _ _ => simp at hw
      subst hwn
      simp only [List.filter_cons, List.isEmpty_nil, Bool.not_true, if_false,
        List.map_cons, List.flatten_cons, hf, List.nil_append]
      exact ih
    · simp only [List.filter_cons, hw, Bool.not_false, if_true, List.map_cons,
        List.flatten_cons]
      rw [ih]

theorem filter_intercalate_space (p : Char → Bool) (hp : p ' ' = false) :
    ∀ L : List (List Char),
      (List.intercalate [' '] L).filter p = (L.map (fun w => w.filter p)).flatten := by
  intro L
  induction L with
  | nil => rfl
  | cons w L ih =>
    cases L with
    | nil => simp [intercalate_nl_single, List.intercalate]
    | cons w2 L' =>
      have hcons : List.intercalate [' '] (w :: w2 :: L') =
          w ++ ' ' :: List.intercalate [' '] (w2 :: L') := by
        simp [List.intercalate]
      rw [hcons, List.filter_append, List.filter_cons, hp]
      simp [ih]

theorem filter_collapseWS (p : Char → Bool)
    (hpq : ∀ c, pyIsSpace c = true → p c = false) (s : List Char) :
    (collapseWS s).filter p = s.filter p := by
  have hsp : p ' ' = false := hpq ' ' (by decide)
  unfold collapseWS pyWords
  rw [filter_intercalate_space p hsp]
  rw [flatten_map_filter_ne_nil (fun w => w.filter p) rfl]
  exact (filter_eq_flatten_splitOnP p pyIsSpace hpq s).symm

theorem pyWords_mem_ne_nil {s : List Char} {w : List Char} (h : w ∈ pyWords s) : w ≠ [] := by
  unfold pyWords at h
  have := (List.mem_filter.mp h).2
  intro hc
  subst hc
  simpa using this

theorem pyWords_mem_no_space {s : List Char} {w : List Char} (h : w ∈ pyWords s) :
    ∀ c ∈ w, pyIsSpace c = false := by
  unfold pyWords at h
  exact splitOnP_chunks_no_sep pyIsSpace s w (List.mem_filter.mp h).1

theorem intercalate_space_cons (w : List Char) (L : List (List Char)) :
    ∃ v, List.intercalate [' '] (w :: L) = w ++ v := by
  cases L with
  | nil => exact ⟨[], by simp [List.intercalate]⟩
  | cons w2 L' => exact ⟨' ' :: List.intercalate [' '] (w2 :: L'), by simp [List.intercalate]⟩

theorem collapseWS_cons_head {c : Char} {s : List Char} (hc : pyIsSpace c = false) :
    ∃ u, collapseWS (c :: s) = c :: u := by
  unfold collapseWS pyWords
  rw [List.splitOnP_cons, if_neg (by simp [hc])]
  cases hsp : List.splitOnP pyIsSpace s with
  | nil => exact absurd hsp (List.splitOnP_ne_nil _ _)
  | cons h0 tl =>
    simp only [List.modifyHead, List.filter_cons]
    rw [if_pos (by simp)]
    obtain ⟨v, hv⟩ := intercalate_space_cons (c :: h0) (tl.filter (fun w => !w.isEmpty))
    exact ⟨h0 ++ v, by rw [hv]; simp⟩

theorem getLast?_intercalate_space (L : List (List Char)) (hL : ∀ w ∈ L, w ≠ []) :
    (List.intercalate [' '] L).getLast? = L.flatten.getLast? := by
  induction L with
  | nil => rfl
  | cons w L ih =>
    cases L with
    | nil => simp [List.intercalate]
    | cons w2 L' =>
      have hI : List.intercalate [' '] (w2 :: L') ≠ [] := by
        obtain ⟨v, hv⟩ := intercalate_space_cons w2 L'
        rw [hv]
        intro hc
        exact hL w2 (List.mem_cons_of_mem _ (List.mem_cons_self _ _))
          (List.append_eq_nil.mp hc).1
      have hcons : List.intercalate [' '] (w :: w2 :: L') =
          w ++ ' ' :: List.intercalate [' '] (w2 :: L') := by
        simp [List.intercalate]
      have ih' := ih (fun x hx => hL x (List.mem_cons_of_mem _ hx))
      rw [hcons, List.flatten_cons, List.getLast?_append, List.getLast?_append]
      cases hI2 : (List.intercalate [' '] (w2 :: L')).getLast? with
      | none => exact absurd ( List.getLast?_eq_none_iff.mp hI2) hI
      | some z =>
        have hF2 : (w2 :: L').flatten.getLast? = some z := by rw [← ih', hI2]
        have h3 : (' ' :: List.intercalate [' '] (w2 :: L')).getLast? = some z := by
          rw [show (' ' :: List.intercalate [' '] (w2 :: L')) =
            [' '] ++ List.intercalate [' '] (w2 :: L') from rfl, List.getLast?_append, hI2]
          rfl
        rw [h3, hF2]

theorem flatten_pyWords (s : List Char) :
    (pyWords s).flatten = s.filter (fun c => !pyIsSpace c) := by
  have h1 := filter_eq_flatten_splitOnP (fun c => !pyIsSpace c) pyIsSpace
    (fun c hc => by simp [hc]) s
  have h2 : ((List.splitOnP pyIsSpace s).map
      (fun w => w.filter (fun c => !pyIsSpace c))).flatten =
      (List.splitOnP pyIsSpace s).flatten := by
    have hmap : (List.splitOnP pyIsSpace s).map
        (fun w => w.filter (fun c => !pyIsSpace c)) = List.splitOnP pyIsSpace s := by
      conv_rhs => rw [← List.map_id (List.splitOnP pyIsSpace s)]
      apply List.map_congr_left
      intro w hw
      simp only [id]
      apply List.filter_eq_self.mpr
      intro c hc
      simp [splitOnP_chunks_no_sep pyIsSpace s w hw c hc]
    rw [hmap]
  have h3 : (pyWords s).flatten = (List.splitOnP pyIsSpace s).flatten := by
    unfold pyWords
    have := flatten_map_filter_ne_nil id rfl (List.splitOnP pyIsSpace s)
    simpa using this
  rw [h3, ← h2, ← h1]

theorem collapseWS_getLast {s : List Char} {c : Char} (h : s.getLast? = some c)
    (hc : pyIsSpace c = false) : (collapseWS s).getLast? = some c := by
  have h1 : (collapseWS s).getLast? = (pyWords s).flatten.getLast? := by
    unfold collapseWS
    exact getLast?_intercalate_space (pyWords s) (fun w hw => pyWords_mem_ne_nil hw)
  rw [h1, flatten_pyWords]
  obtain ⟨ys, hys⟩ := List.getLast?_eq_some_iff.mp h
  subst hys
  rw [List.filter_append]
  simp only [List.filter_cons, List.filter_nil, hc, Bool.not_false, if_true]
  exact List.getLast?_concat _

/-- The brace subsequence of a tail consumed by the nested pattern: `k`
nested `obr cbr` groups followed by the closing brace. -/
def pairsClose : Nat → List Char
  | 0 => [cbr]
  | k + 1 => obr :: cbr :: pairsClose k

/-- True exactly on the two brace characters. -/
def isBraceChar (c : Char) : Bool := c == obr || c == cbr

theorem pairsClose_ne_nil (k : Nat) : pairsClose k ≠ [] := by
  cases k <;> simp [pairsClose]

theorem notBrace_iff (c : Char) : notBrace c = !isBraceChar c := rfl

theorem NestedTail.braces {t : List Char} (h : NestedTail t) :
    ∃ k, t.filter isBraceChar = pairsClose k := by
  induction h with
  | flat a ha =>
    refine ⟨0, ?_⟩
    rw [List.filter_append]
    have hfa : a.filter isBraceChar = [] := by
      rw [List.filter_eq_nil_iff]
      intro c hca
      have := ha c hca
      rw [notBrace_iff] at this
      simpa using this
    rw [hfa]
    simp [pairsClose, isBraceChar]
  | pair a b t1 ha hb ht ih =>
    obtain ⟨k, hk⟩ := ih
    refine ⟨k + 1, ?_⟩
    have hfa : a.filter isBraceChar = [] := by
      rw [List.filter_eq_nil_iff]
      intro c hca
      have := ha c hca
      rw [notBrace_iff] at this
      simpa using this
    have hfb : b.filter isBraceChar = [] := by
      rw [List.filter_eq_nil_iff]
      intro c hcb
      have := hb c hcb
      rw [notBrace_iff] at this
      simpa using this
    rw [List.filter_append, hfa, List.nil_append, List.filter_cons]
    rw [if_pos (by simp [isBraceChar])]
    rw [List.filter_append, hfb, List.nil_append, List.filter_cons]
    rw [if_pos (by simp [isBraceChar]), hk]
    rfl

theorem NestedTail.getLast_cbr {t : List Char} (h : NestedTail t) :
    t.getLast? = some cbr := by
  induction h with
  | flat a ha => exact List.getLast?_concat _
  | pair a b t1 ha hb ht ih =>
    have ht1 : t1 ≠ [] := ht.ne_nil
    rw [List.getLast?_append]
    rw [show (obr :: (b ++ cbr :: t1)) = [obr] ++ (b ++ ([cbr] ++ t1)) from by simp]
    rw [List.getLast?_append, List.getLast?_append, List.getLast?_append, ih]
    rfl

theorem filter_brace_nil_of_notBrace {a : List Char}
    (ha : ∀ c ∈ a, notBrace c = true) : a.filter isBraceChar = [] := by
  rw [List.filter_eq_nil_iff]
  intro c hc
  have := ha c hc
  rw [notBrace_iff] at this
  simpa using this

theorem nestedTail_of_braces : ∀ (n : Nat) (t : List Char) (k : Nat),
    t.length ≤ n → t.filter isBraceChar = pairsClose k → t.getLast? = some cbr →
    NestedTail t := by
  intro n
  induction n with
  | zero =>
    intro t k hlen hf _hl
    have ht : t = [] := List.eq_nil_of_length_eq_zero (Nat.le_zero.mp hlen)
    subst ht
    exact absurd hf.symm (by simpa using pairsClose_ne_nil k)
  | succ n ih =>
    intro t k hlen hf hl
    have hsplit : t = t.takeWhile notBrace ++ t.dropWhile notBrace :=
      (List.takeWhile_append_dropWhile (p := notBrace) (l := t)).symm
    have hfa : (t.takeWhile notBrace).filter isBraceChar = [] :=
      filter_brace_nil_of_notBrace (fun c hc => List.mem_takeWhile_imp hc)
    have hfilter : t.filter isBraceChar = (t.dropWhile notBrace).filter isBraceChar := by
      conv_lhs => rw [hsplit]
      rw [List.filter_append, hfa, List.nil_append]
    cases hr : t.dropWhile notBrace with
    | nil =>
      rw [hfilter, hr] at hf
      exact absurd hf.symm (by simpa using pairsClose_ne_nil k)
    | cons c r1 =>
      have hcbrace : notBrace c = false := by
        have := List.head?_dropWhile_not notBrace t
        rw [hr] at this
        simpa using this
      have hcb : isBraceChar c = true := by
        rw [notBrace_iff] at hcbrace
        simpa using hcbrace
      have hf1 : c :: r1.filter isBraceChar = pairsClose k := by
        rw [hfilter, hr, List.filter_cons, if_pos hcb] at hf
        exact hf
      cases k with
      | zero =>
        simp only [pairsClose] at hf1
        injection hf1 with hcc hrest
        have hr1nil : r1 = [] := by
          by_contra hne
          have hlast : t.getLast? = r1.getLast? := by
            conv_lhs => rw [hsplit, hr]
            rw [show t.takeWhile notBrace ++ c :: r1 =
              (t.takeWhile notBrace ++ [c]) ++ r1 from by simp]
            exact List.getLast?_append_of_ne_nil _ hne
          rw [hlast] at hl
          have hmem : cbr ∈ r1 := List.mem_of_getLast?_eq_some hl
          have : cbr ∈ r1.filter isBraceChar :=
            List.mem_filter.mpr ⟨hmem, by simp [isBraceChar]⟩
          rw [hrest] at this
          cases this
        subst hcc
        subst hr1nil
        rw [hsplit, hr]
        exact NestedTail.flat _ (fun x hx => List.mem_takeWhile_imp hx)
      | succ k1 =>
        simp only [pairsClose] at hf1
        injection hf1 with hcc hrest
        have hsplit2 : r1 = r1.takeWhile notBrace ++ r1.dropWhile notBrace :=
          (List.takeWhile_append_dropWhile (p := notBrace) (l := r1)).symm
        have hfb : (r1.takeWhile notBrace).filter isBraceChar = [] :=
          filter_brace_nil_of_notBrace (fun x hx => List.mem_takeWhile_imp hx)
        have hfilter2 : r1.filter isBraceChar = (r1.dropWhile notBrace).filter isBraceChar := by
          conv_lhs => rw [hsplit2]
          rw [List.filter_append, hfb, List.nil_append]
        cases hr2 : r1.dropWhile notBrace with
        | nil =>
          rw [hfilter2, hr2] at hrest
          exact absurd hrest.symm (by simp)
        | cons c2 r3 =>
          have hc2brace : notBrace c2 = false := by
            have := List.head?_dropWhile_not notBrace r1
            rw [hr2] at this
            simpa using this
          have hc2b : isBraceChar c2 = true := by
            rw [notBrace_iff] at hc2brace
            simpa using hc2brace
          have hf2 : c2 :: r3.filter isBraceChar = cbr :: pairsClose k1 := by
            rw [hfilter2, hr2, List.filter_cons, if_pos hc2b] at hrest
            exact hrest
          injection hf2 with hcc2 hrest2
          have hr3ne : r3 ≠ [] := by
            intro hc3
            subst hc3
            exact absurd hrest2.symm (by simpa using pairsClose_ne_nil k1)
          have hteq : t = t.takeWhile notBrace ++
              obr :: (r1.takeWhile notBrace ++ cbr :: r3) := by
            conv_lhs => rw [hsplit, hr]
            rw [hcc]
            congr 1
            congr 1
            conv_lhs => rw [hsplit2, hr2]
            rw [hcc2]
          have hlast : t.getLast? = r3.getLast? := by
            conv_lhs => rw [hteq]
            rw [show t.takeWhile notBrace ++ obr :: (r1.takeWhile notBrace ++ cbr :: r3) =
              (t.takeWhile notBrace ++ obr :: (r1.takeWhile notBrace ++ [cbr])) ++ r3
              from by simp]
            exact List.getLast?_append_of_ne_nil _ hr3ne
          have hlen3 : r3.length ≤ n := by
            have := congrArg List.length hteq
            simp only [List.length_append, List.length_cons] at this
            omega
          have hnt3 : NestedTail r3 :=
            ih r3 k1 hlen3 hrest2 (by rw [← hlast]; exact hl)
          rw [hteq]
          exact NestedTail.pair _ _ _ (fun x hx => List.mem_takeWhile_imp hx)
            (fun x hx => List.mem_takeWhile_imp hx) hnt3

theorem pyIsSpace_not_brace : ∀ c, pyIsSpace c = true → isBraceChar c = false := by
  intro c hc
  have hcases : c = ' ' ∨ c = '\t' ∨ c = '\n' ∨ c = '\r' ∨ c = '\x0b' ∨ c = '\x0c' := by
    simp only [pyIsSpace, Bool.or_eq_true, beq_iff_eq] at hc
    tauto
  rcases hcases with h | h | h | h | h | h <;> subst h <;> decide

theorem collapseWS_nestedTail {t : List Char} (h : NestedTail t) :
    ∃ u, collapseWS (obr :: t) = obr :: u ∧ NestedTail u := by
  obtain ⟨u, hu⟩ := collapseWS_cons_head (c := obr) (s := t) (by decide)
  refine ⟨u, hu, ?_⟩
  have hfil : (collapseWS (obr :: t)).filter isBraceChar = (obr :: t).filter isBraceChar :=
    filter_collapseWS isBraceChar pyIsSpace_not_brace (obr :: t)
  rw [hu] at hfil
  obtain ⟨k, hk⟩ := h.braces
  have huf : u.filter isBraceChar = pairsClose k := by
    rw [List.filter_cons, List.filter_cons, if_pos (by decide), if_pos (by decide)] at hfil
    injection hfil with _ h2
    rw [h2, hk]
  have hne : t ≠ [] := h.ne_nil
  have hlt : (obr :: t).getLast? = some cbr := by
    rw [show obr :: t = [obr] ++ t from rfl, List.getLast?_append_of_ne_nil _ hne]
    exact h.getLast_cbr
  have hcl : (collapseWS (obr :: t)).getLast? = some cbr := collapseWS_getLast hlt (by decide)
  rw [hu] at hcl
  have hune : u ≠ [] := by
    intro hc
    subst hc
    have : (obr : Char) = cbr := by simpa using hcl
    exact absurd this (by decide)
  have hul : u.getLast? = some cbr := by
    rw [show obr :: u = [obr] ++ u from rfl, List.getLast?_append_of_ne_nil _ hune] at hcl
    exact hcl
  exact nestedTail_of_braces u.length u k (Nat.le_refl _) huf hul

theorem pyWords_intercalate (L : List (List Char))
    (h1 : ∀ w ∈ L, w ≠ []) (h2 : ∀ w ∈ L, ∀ c ∈ w, pyIsSpace c = false) :
    pyWords (List.intercalate [' '] L) = L := by
  induction L with
  | nil => rfl
  | cons w L' ih =>
    have hw1 : w ≠ [] := h1 w (List.mem_cons_self _ _)
    have hw2 : ∀ x ∈ w, ¬ pyIsSpace x = true := by
      intro x hx
      rw [h2 w (List.mem_cons_self _ _) x hx]
      simp
    cases L' with
    | nil =>
      have hsing : List.intercalate [' '] [w] = w := by simp [List.intercalate]
      rw [hsing]
      unfold pyWords
      rw [List.splitOnP_eq_single _ _ hw2]
      simp [hw1]
    | cons w2 L'' =>
      have hcons : List.intercalate [' '] (w :: w2 :: L'') =
          w ++ ' ' :: List.intercalate [' '] (w2 :: L'') := by
        simp [List.intercalate]
      rw [hcons]
      unfold pyWords
      rw [List.splitOnP_first _ _ hw2 ' ' (by decide)]
      rw [List.filter_cons, if_pos (by simpa using hw1)]
      congr 1
      have ih' := ih (fun x hx => h1 x (List.mem_cons_of_mem _ hx))
        (fun x hx => h2 x (List.mem_cons_of_mem _ hx))
      unfold pyWords at ih'
      exact ih'

theorem collapseWS_idem (s : List Char) : collapseWS (collapseWS s) = collapseWS s := by
  have h := pyWords_intercalate (pyWords s)
    (fun w hw => pyWords_mem_ne_nil hw)
    (fun w hw => pyWords_mem_no_space hw)
  show List.intercalate [' '] (pyWords (collapseWS s)) = collapseWS s
  rw [show collapseWS s = List.intercalate [' '] (pyWords s) from rfl, h]

/-- Claim C7 (amended).  `clean_json_logs` (the spec's normalizeJson) is
idempotent on every input all of whose extracted brace-delimited matches fail
to parse as JSON both as found and after whitespace collapsing: each first-pass
output block is then the whitespace-collapsed match, re-extraction of the
newline-joined blocks recovers exactly those blocks, they still fail to parse,
and collapsing is itself idempotent, so the second pass returns the first
pass's output unchanged. -/
theorem normalizeJson_idem_of_unparsed (x : List Char)
    (h : ∀ m ∈ findAllNested x,
      (jsonLoads m).isNone = true ∧ (jsonLoads (collapseWS m)).isNone = true) :
    clean_json_logs (clean_json_logs x) = clean_json_logs x := by
  have h1 : clean_json_logs x =
      List.intercalate ['\n'] ((findAllNested x).map collapseWS) := by
    unfold clean_json_logs
    congr 1
    apply List.map_congr_left
    intro m hm
    rw [Option.isNone_iff_eq_none.mp (h m hm).1]
  have hshape2 : ∀ m2 ∈ (findAllNested x).map collapseWS,
      ∃ t, m2 = obr :: t ∧ NestedTail t := by
    intro m2 hm2
    obtain ⟨m, hm, hmapped⟩ := List.mem_map.mp hm2
    obtain ⟨t, hmt, hnt⟩ := findAllNestedAux_shape x.length x m hm
    obtain ⟨u, hu, hnu⟩ := collapseWS_nestedTail hnt
    refine ⟨u, ?_, hnu⟩
    rw [← hmapped, hmt, hu]
  have h2 : findAllNested (List.intercalate ['\n'] ((findAllNested x).map collapseWS)) =
      (findAllNested x).map collapseWS := by
    unfold findAllNested
    exact findAllNestedAux_intercalate _ _ hshape2 (Nat.le_refl _)
  rw [h1]
  unfold clean_json_logs
  rw [h2, List.map_map]
  congr 1
  apply List.map_congr_left
  intro m hm
  simp only [Function.comp_apply]
  rw [Option.isNone_iff_eq_none.mp (h m hm).2]
  exact collapseWS_idem m

/-- Claim C7 (amended), witness: a concrete input with two extracted matches,
neither of which parses as JSON before or after collapsing; `clean_json_logs`
fixes its own output on it. -/
theorem normalizeJson_idem_of_unparsed_witness :
    (∀ m ∈ findAllNested ("\x7ba  b\x7d x \x7bc\x7d".toList),
      (jsonLoads m).isNone = true ∧ (jsonLoads (collapseWS m)).isNone = true) ∧
    clean_json_logs (clean_json_logs ("\x7ba  b\x7d x \x7bc\x7d".toList)) =
      clean_json_logs ("\x7ba  b\x7d x \x7bc\x7d".toList) :=
  ⟨by decide, normalizeJson_idem_of_unparsed _ (by decide)⟩
